import Mathlib

/-!
Sequell xlog normalisation (`crawl/xlogtools`).

A shallow embedding of `crawlxlog.go` and `xlognaming.go`.

* Go strings are Lean `String`s (sequences of Unicode code points; byte
  sequences that are not valid UTF-8 are outside the model).
* `xlog.Xlog` (`map[string]string`) is an association list; `log[k]` reads
  are `Xlog.get` (absent keys read as `""`), the comma-ok form is
  `Xlog.lookup`, and `log[k] = v` is `Xlog.set`.
* Go's `regexp` package is embedded as a backtracking matcher over the
  fragment of the pattern language the package uses; Go documents its choice of match
  as leftmost-first, "the one that a backtracking search would have found
  first".
* Functions of sibling packages (`version`, `place`, `god`, `player`,
  `killer`, `text`) and the configuration tables are fields of `Env`, or
  parameters of the function that uses them (`version.ExpandVersionKey`,
  the package variable `gameTypeMatcher`).
* A Go map that the code ranges over is a list of its entries in the order
  in which the loop visits them; Go leaves that order unspecified.
-/

namespace Sequell

/-! ## Records -/

/-- The record type `xlog.Xlog`, a `map[string]string`. -/
abbrev Xlog := List (String × String)

namespace Xlog

/-- The comma-ok read `v, ok := log[k]`. -/
def lookup (k : String) : Xlog → Option String
  | [] => none
  | (k', v) :: r => if k' = k then some v else lookup k r

/-- The plain read `log[k]`: the zero value `""` for an absent key. -/
def get (log : Xlog) (k : String) : String :=
  (lookup k log).getD ""

/-- The assignment `log[k] = v`. -/
def set (k v : String) : Xlog → Xlog
  | [] => [(k, v)]
  | (k', v') :: r => if k' = k then (k, v) :: r else (k', v') :: set k v r

end Xlog

/-! ## Regular expressions (the fragment of RE2 patterns used by the package) -/

/-- Single-character matchers. -/
inductive CharClass where
  /-- A literal character. -/
  | lit (c : Char)
  /-- A literal character under the `(?i)` flag. -/
  | litFold (c : Char)
  /-- The dot: any character except newline. -/
  | any
  /-- The class `\w`. -/
  | word
  /-- The class `\d`. -/
  | digit
  /-- The class `\S`. -/
  | notSpace
  /-- A bracket expression joining two classes. -/
  | union (a b : CharClass)

/-- The class `\w` is `[0-9A-Za-z_]`. -/
def isWordChar (c : Char) : Bool :=
  c.isAlphanum || c == '_'

/-- The class `\s` is `[\t\n\f\r ]`. -/
def isPerlSpace (c : Char) : Bool :=
  c == '\t' || c == '\n' || c == '\x0c' || c == '\r' || c == ' '

/-- Whether `x` is in the simple case-folding orbit of the ASCII character
`c`, as `unicode.SimpleFold` enumerates it: the two cases of a letter, and
besides them the Kelvin sign for `k` and the long s for `s`. -/
def foldsTo (c x : Char) : Bool :=
  x.toLower == c.toLower || (c.toLower == 'k' && x == Char.ofNat 0x212A) ||
    (c.toLower == 's' && x == Char.ofNat 0x017F)

namespace CharClass

/-- Whether a character belongs to a class. -/
def test : CharClass → Char → Bool
  | lit c, x => x == c
  | litFold c, x => foldsTo c x
  | any, x => x != '\n'
  | word, x => isWordChar x
  | digit, x => x.isDigit
  | notSpace, x => !isPerlSpace x
  | union a b, x => a.test x || b.test x

end CharClass

/-- Regular expressions. Repetition is over single-character classes, which
is all the patterns of the package need. -/
inductive Regex where
  /-- The empty pattern. -/
  | empty
  /-- One character of a class. -/
  | chr (c : CharClass)
  /-- Concatenation. -/
  | cat (r s : Regex)
  /-- Alternation, preferring the left branch. -/
  | alt (r s : Regex)
  /-- Repetition `c*` (greedy) or `c*?` (lazy). -/
  | star (greedy : Bool) (c : CharClass)
  /-- Capture group number `n`. -/
  | group (n : Nat) (r : Regex)
  /-- Beginning of text, `^`. -/
  | bot
  /-- End of text, `$`. -/
  | eot
  /-- ASCII word boundary, `\b`. -/
  | wordBoundary

/-- The state of a match in progress: the character before the cursor (none
at the start of the text), the text after the cursor and the captures. -/
structure MState where
  prev : Option Char
  rest : List Char
  caps : List (List Char)

/-- Greedy repetition: take as many characters as possible, then give back. -/
def starGreedy (c : CharClass) (k : MState → Option (List (List Char)))
    (caps : List (List Char)) : Option Char → List Char → Option (List (List Char))
  | prev, [] => k ⟨prev, [], caps⟩
  | prev, x :: xs =>
    if c.test x then
      match starGreedy c k caps (some x) xs with
      | some m => some m
      | none => k ⟨prev, x :: xs, caps⟩
    else k ⟨prev, x :: xs, caps⟩

/-- Lazy repetition: take as few characters as possible, then take more. -/
def starLazy (c : CharClass) (k : MState → Option (List (List Char)))
    (caps : List (List Char)) : Option Char → List Char → Option (List (List Char))
  | prev, [] => k ⟨prev, [], caps⟩
  | prev, x :: xs =>
    match k ⟨prev, x :: xs, caps⟩ with
    | some m => some m
    | none => if c.test x then starLazy c k caps (some x) xs else none

/-- The character before the cursor once the characters of a list have been
consumed. -/
def prevAfter (prev : Option Char) : List Char → Option Char
  | [] => prev
  | c :: cs => prevAfter (some c) cs

/-- Whether the cursor is at an ASCII word boundary. -/
def atWordBoundary (s : MState) : Bool :=
  (match s.prev with | some c => isWordChar c | none => false) !=
  (match s.rest with | c :: _ => isWordChar c | [] => false)

namespace Regex

/-- The sequence of literal characters of a string. -/
def litSeq : List Char → Regex
  | [] => empty
  | c :: cs => cat (chr (.lit c)) (litSeq cs)

/-- A literal string. -/
def str (s : String) : Regex := litSeq s.data

/-- The pattern `c+` or `c+?`. -/
def plus (greedy : Bool) (c : CharClass) : Regex := cat (chr c) (star greedy c)

/-- The pattern `r?`. -/
def opt (r : Regex) : Regex := alt r empty

/-- Backtracking match of `r` at a state, continuing with `k`; alternatives
are tried in the order of preference. -/
def run : Regex → (MState → Option (List (List Char))) → MState → Option (List (List Char))
  | empty, k, s => k s
  | chr c, k, s =>
    match s.rest with
    | x :: xs => if c.test x then k ⟨some x, xs, s.caps⟩ else none
    | [] => none
  | cat r t, k, s => run r (run t k) s
  | alt r t, k, s =>
    match run r k s with
    | some m => some m
    | none => run t k s
  | star greedy c, k, s =>
    if greedy then starGreedy c k s.caps s.prev s.rest else starLazy c k s.caps s.prev s.rest
  | group n r, k, s =>
    run r (fun e => k ⟨e.prev, e.rest,
      e.caps.set n (s.rest.take (s.rest.length - e.rest.length))⟩) s
  | bot, k, s => if s.prev.isNone then k s else none
  | eot, k, s => if s.rest.isEmpty then k s else none
  | wordBoundary, k, s => if atWordBoundary s then k s else none

/-- The number of capture groups: one more than the largest group number. -/
def numGroups : Regex → Nat
  | cat r t => max (numGroups r) (numGroups t)
  | alt r t => max (numGroups r) (numGroups t)
  | group n r => max (n + 1) (numGroups r)
  | _ => 0

/-- Match the whole pattern (group 0) starting at exactly this cursor. -/
def matchAt (re : Regex) (prev : Option Char) (rest : List Char) : Option (List (List Char)) :=
  run (group 0 re) (fun e => some e.caps) ⟨prev, rest, List.replicate (max 1 (numGroups re)) []⟩

/-- The leftmost match: try every start position from left to right. -/
def search (re : Regex) : Option Char → List Char → Option (List (List Char))
  | prev, [] => matchAt re prev []
  | prev, x :: xs =>
    match matchAt re prev (x :: xs) with
    | some m => some m
    | none => search re (some x) xs

/-- The method `FindStringSubmatch`: the text of the leftmost match and of
its capture groups, or `none` (a nil slice) when there is no match. -/
def FindStringSubmatch (re : Regex) (text : String) : Option (List String) :=
  (search re none text.data).map (fun m => m.map String.mk)

/-- The method `FindString`: the text of the leftmost match, `""` if none. -/
def FindString (re : Regex) (text : String) : String :=
  match FindStringSubmatch re text with
  | some m => m.getD 0 ""
  | none => ""

/-- The method `MatchString`. -/
def MatchString (re : Regex) (text : String) : Bool :=
  (FindStringSubmatch re text).isSome

end Regex

/-! ## `crawlxlog.go` -/

/-- The enumeration `XlogType`. -/
inductive XlogType where
  | Unknown
  | Log
  | Milestone
  deriving DecidableEq, Repr

/-- The errors of the package; `ErrNoSrc` is its only error value. -/
inductive XlogError where
  | ErrNoSrc
  deriving DecidableEq, Repr

/-- The functions of sibling packages and the configuration tables read by
the package. Tables are lists in the order in which a `range` loop visits
their entries. -/
structure Env where
  /-- The function `version.FullVersion`. -/
  FullVersion : String → String
  /-- The function `version.MajorVersion`. -/
  MajorVersion : String → String
  /-- The function `version.IsAlpha`. -/
  IsAlpha : String → Bool
  /-- The function `version.VersionNumericId`, a `uint64`. -/
  VersionNumericId : String → Nat
  /-- The function `place.CanonicalPlace`. -/
  CanonicalPlace : String → String
  /-- The function `place.StripPlaceDepth`. -/
  StripPlaceDepth : String → String
  /-- The function `god.CanonicalGod`. -/
  CanonicalGod : String → String
  /-- The function `player.NormalizeRace`. -/
  NormalizeRace : String → String
  /-- The function `killer.NormalizeKiller`. -/
  NormalizeKiller : String → String → String → String
  /-- The function `killer.NormalizeKmod`. -/
  NormalizeKmod : String → String
  /-- The function `killer.NormalizeKaux`. -/
  NormalizeKaux : String → String
  /-- The function `text.ParseInt`. -/
  ParseInt : String → Int → Int
  /-- The table `milestone-verb-mappings`. -/
  milestoneVerbMap : List (String × String)
  /-- The table `field-input-transforms`: field name to (search to replace). -/
  fieldInputTransforms : List (String × List (String × String))

/-- Modelled from the spec: `text.FirstNotEmpty` is not among the sources;
the spec calls it "first non-empty of" its arguments. -/
def FirstNotEmpty : List String → String
  | [] => ""
  | s :: r => if s ≠ "" then s else FirstNotEmpty r

/-- The value of an unsigned decimal numeral, if the characters are one. -/
def parseDecimal (cs : List Char) : Option Nat :=
  if cs ≠ [] ∧ cs.all Char.isDigit = true then
    some (cs.foldl (fun n c => 10 * n + (c.toNat - 48)) 0)
  else none

/-- Modelled from the spec: `text.ParseInt` is not among the sources; the
spec has fields "parsed as integers" with "empty/unparseable treated as" the
default. An optional sign followed by decimal digits is read as an integer. -/
def parseIntOr (s : String) (defval : Int) : Int :=
  match s.data with
  | '-' :: cs => match parseDecimal cs with
    | some n => - (n : Int)
    | none => defval
  | '+' :: cs => match parseDecimal cs with
    | some n => (n : Int)
    | none => defval
  | cs => match parseDecimal cs with
    | some n => (n : Int)
    | none => defval

/-- An environment whose canonicalizers are the identity and whose tables
are empty. -/
def Env.identity : Env where
  FullVersion := fun v => v
  MajorVersion := fun v => v
  IsAlpha := fun _ => false
  VersionNumericId := fun _ => 0
  CanonicalPlace := fun p => p
  StripPlaceDepth := fun p => p
  CanonicalGod := fun g => g
  NormalizeRace := fun r => r
  NormalizeKiller := fun k _ _ => k
  NormalizeKmod := fun k => k
  NormalizeKaux := fun k => k
  ParseInt := parseIntOr
  milestoneVerbMap := []
  fieldInputTransforms := []

/-- The function `Type`. -/
def «Type» (line : Xlog) : XlogType :=
  match Xlog.lookup "type" line with
  | some _ => XlogType.Milestone
  | none => XlogType.Log

/-- The function `NormalizeBool`. -/
def NormalizeBool (b : String) : String :=
  if b ≠ "" ∧ b ≠ "0" then "t" else "f"

/-- The function `ValidXlog`. -/
def ValidXlog (log : Xlog) : Bool :=
  decide (Xlog.get log "start" ≠ "" ∧ Xlog.get log "name" ≠ "" ∧
    (Xlog.get log "end" ≠ "" ∨ Xlog.get log "time" ≠ ""))

/-- The function `NormalizeMapName`: every comma becomes a semicolon. -/
def NormalizeMapName (mapname : String) : String :=
  String.mk (mapname.data.map (fun c => if c = ',' then ';' else c))

open Regex CharClass in
/-- The pattern `(\w+) (.*?)\.?$`. -/
def rActionWord : Regex :=
  cat (group 1 (plus true word)) (cat (str " ") (cat (group 2 (star false any))
    (cat (opt (chr (lit '.'))) eot)))

open Regex CharClass in
/-- The pattern `(\w+) the ghost of (\S+)`. -/
def rGhostWord : Regex :=
  cat (group 1 (plus true word)) (cat (str " the ghost of ") (group 2 (plus true notSpace)))

open Regex CharClass in
/-- The pattern `\((.*?)\)$`. -/
def rAbyssCause : Regex :=
  cat (chr (lit '(')) (cat (group 1 (star false any)) (cat (chr (lit ')')) eot))

open Regex CharClass in
/-- The pattern `found an? (\S+) rune`. -/
def rFoundRune : Regex :=
  cat (str "found a") (cat (opt (chr (lit 'n'))) (cat (str " ")
    (cat (group 1 (plus true notSpace)) (str " rune"))))

open Regex CharClass in
/-- The pattern `^(?:partially )?mollified (.*)[.]$`. -/
def rMollifiedGod : Regex :=
  cat bot (cat (opt (str "partially ")) (cat (str "mollified ")
    (cat (group 1 (star true any)) (cat (chr (lit '.')) eot))))

open Regex CharClass in
/-- The pattern `^abandoned (.*)[.]$`. -/
def rRenouncedGod : Regex :=
  cat bot (cat (str "abandoned ") (cat (group 1 (star true any)) (cat (chr (lit '.')) eot)))

open Regex CharClass in
/-- The pattern `^became the Champion of (.*)[.]$`. -/
def rMaxedPietyGod : Regex :=
  cat bot (cat (str "became the Champion of ")
    (cat (group 1 (star true any)) (cat (chr (lit '.')) eot)))

open Regex CharClass in
/-- The pattern `^became a worshipper of (.*)[.]$`. -/
def rWorshippedGod : Regex :=
  cat bot (cat (str "became a worshipper of ")
    (cat (group 1 (star true any)) (cat (chr (lit '.')) eot)))

open Regex CharClass in
/-- The pattern `fell down a shaft to (.*)[.]$`. -/
def rShaftedPlace : Regex :=
  cat (str "fell down a shaft to ") (cat (group 1 (star true any)) (cat (chr (lit '.')) eot))

/-- The function `qualifyVerbAction`. -/
def qualifyVerbAction (verb actionWord : String) : String :=
  if actionWord = "banished" then verb ++ ".ban"
  else if actionWord = "pacified" then verb ++ ".pac"
  else if actionWord = "enslaved" then verb ++ ".ens"
  else verb

/-- The function `textReSubmatch`. -/
def textReSubmatch (text : String) (reg : Regex) (submatch : Nat) : String :=
  match reg.FindStringSubmatch text with
  | some m => m.getD submatch ""
  | none => text

/-- The function `FoundRuneName`. -/
def FoundRuneName (found : String) : String := textReSubmatch found rFoundRune 1

/-- The function `MollifiedGodName`. -/
def MollifiedGodName (mollifiedMsg : String) : String :=
  textReSubmatch mollifiedMsg rMollifiedGod 1

/-- The function `RenouncedGodName`. -/
def RenouncedGodName (renounceMsg : String) : String :=
  textReSubmatch renounceMsg rRenouncedGod 1

/-- The function `MaxedPietyGodName`. -/
def MaxedPietyGodName (maxpietyMsg : String) : String :=
  textReSubmatch maxpietyMsg rMaxedPietyGod 1

/-- The function `WorshippedGodName`. -/
def WorshippedGodName (worshipMsg : String) : String :=
  textReSubmatch worshipMsg rWorshippedGod 1

/-- The function `ShaftedPlace`. -/
def ShaftedPlace (shaftMsg : String) : String := textReSubmatch shaftMsg rShaftedPlace 1

/-- Step A of `NormalizeMilestoneFields` (lines 139 to 143): the verb after
the lookup in `milestoneVerbMap`. -/
def mappedVerb (env : Env) (log : Xlog) : String :=
  match Xlog.lookup (Xlog.get log "verb") env.milestoneVerbMap with
  | some mapped => mapped
  | none => Xlog.get log "verb"

/-- The `switch verb` of `NormalizeMilestoneFields` (lines 146 to 185): the
values of the locals `verb` and `noun` after it. -/
def milestoneSwitch (env : Env) (log : Xlog) (verb noun : String) : String × String :=
  if verb = "uniq" then
    match rActionWord.FindStringSubmatch noun with
    | some actionMatch =>
      (qualifyVerbAction verb (actionMatch.getD 1 ""), actionMatch.getD 2 "")
    | none => (verb, noun)
  else if verb = "ghost" then
    match rGhostWord.FindStringSubmatch noun with
    | some ghostMatch => (qualifyVerbAction verb (ghostMatch.getD 1 ""), ghostMatch.getD 2 "")
    | none => (verb, noun)
  else if verb = "abyss.enter" then
    match rAbyssCause.FindStringSubmatch noun with
    | some abyssCauseMatch => (verb, FirstNotEmpty [abyssCauseMatch.getD 1 "", "?"])
    | none => (verb, noun)
  else if verb = "br.enter" ∨ verb = "br.end" ∨ verb = "br.mid" then
    (verb, env.StripPlaceDepth (Xlog.get log "place"))
  else if verb = "br.exit" then (verb, env.StripPlaceDepth (Xlog.get log "oplace"))
  else if verb = "rune" then (verb, FoundRuneName noun)
  else if verb = "orb" then (verb, "orb")
  else if verb = "god.mollify" then (verb, MollifiedGodName noun)
  else if verb = "god.renounce" then (verb, RenouncedGodName noun)
  else if verb = "god.worship" then (verb, WorshippedGodName noun)
  else if verb = "god.maxpiety" then (verb, MaxedPietyGodName noun)
  else if verb = "monstrous" then (verb, "demonspawn")
  else if verb = "shaft" then (verb, ShaftedPlace noun)
  else (verb, noun)

/-- The function `NormalizeMilestoneFields`. -/
def NormalizeMilestoneFields (env : Env) (log : Xlog) : Xlog :=
  let verb := mappedVerb env log
  let log := match Xlog.lookup (Xlog.get log "verb") env.milestoneVerbMap with
    | some mapped => Xlog.set "verb" mapped log
    | none => log
  let noun := Xlog.get log "noun"
  let vn := milestoneSwitch env log verb noun
  let log := Xlog.set "verb" vn.1 log
  if vn.2 ≠ "" then Xlog.set "noun" vn.2 log else log

/-- The inner loop of `CanonicalizeFields` (lines 256 to 262) over the
entries of one field, in the order visited. -/
def applyTransforms (transformMap : List (String × String)) (value : String) : String :=
  transformMap.foldl (fun value sr => if value = sr.1 then sr.2 else value) value

/-- The function `CanonicalizeFields`, over the table in the order visited. -/
def CanonicalizeFields (fieldInputTransforms : List (String × List (String × String)))
    (log : Xlog) : Xlog :=
  fieldInputTransforms.foldl (fun log ft =>
    match Xlog.lookup ft.1 log with
    | some value => Xlog.set ft.1 (applyTransforms ft.2 value) log
    | none => log) log

/-- The function `sanitizeGold`. -/
def sanitizeGold (env : Env) (log : Xlog) : Xlog :=
  if env.ParseInt (Xlog.get log "gold") 0 < 0 ∨
      env.ParseInt (Xlog.get log "goldfound") 0 < 0 ∨
      env.ParseInt (Xlog.get log "goldspent") 0 < 0 then
    Xlog.set "goldspent" "0" (Xlog.set "goldfound" "0" (Xlog.set "gold" "0" log))
  else log

/-- Lines 73 to 86 of `NormalizeLog`: the version fields. -/
def normalizeVersion (env : Env) (log : Xlog) : Xlog :=
  let log := Xlog.set "v" (env.FullVersion (Xlog.get log "v")) log
  let log := Xlog.set "cv" (env.MajorVersion (Xlog.get log "v")) log
  let log := if env.IsAlpha (Xlog.get log "v") then Xlog.set "alpha" "t" log else log
  let log := if Xlog.get log "alpha" ≠ "" then Xlog.set "cv" (Xlog.get log "cv" ++ "-a") log
    else log
  let log := Xlog.set "vnum" (Nat.repr (env.VersionNumericId (Xlog.get log "v"))) log
  let log := Xlog.set "cvnum" (Nat.repr (env.VersionNumericId (Xlog.get log "cv"))) log
  match Xlog.lookup "vlong" log with
  | some vlong => Xlog.set "vlongnum" (Nat.repr (env.VersionNumericId vlong)) log
  | none => log

/-- Lines 87 to 98 of `NormalizeLog`: booleans, places, god, race and the
derived keys. -/
def normalizeCommon (env : Env) (log : Xlog) : Xlog :=
  let log := Xlog.set "tiles" (NormalizeBool (Xlog.get log "tiles")) log
  let log := Xlog.set "wiz" (NormalizeBool (Xlog.get log "wiz")) log
  let log := if Xlog.get log "ntv" = "" then Xlog.set "ntv" "0" log else log
  let log := Xlog.set "place" (env.CanonicalPlace (Xlog.get log "place")) log
  let log := Xlog.set "oplace" (env.CanonicalPlace (Xlog.get log "oplace")) log
  let log := Xlog.set "br" (env.CanonicalPlace (Xlog.get log "br")) log
  let log := Xlog.set "god" (env.CanonicalGod (Xlog.get log "god")) log
  let log := Xlog.set "crace" (env.NormalizeRace (Xlog.get log "race")) log
  let log := Xlog.set "rstart" (Xlog.get log "start") log
  Xlog.set "game_key"
    (Xlog.get log "name" ++ ":" ++ Xlog.get log "src" ++ ":" ++ Xlog.get log "rstart") log

/-- Lines 102 to 106 of `NormalizeLog`: the milestone branch. -/
def normalizeMilestone (env : Env) (log : Xlog) : Xlog :=
  let log := Xlog.set "verb" (Xlog.get log "type") log
  let log := Xlog.set "noun" (FirstNotEmpty [Xlog.get log "milestone", "?"]) log
  let log := Xlog.set "rtime" (Xlog.get log "time") log
  let log := Xlog.set "oplace" (FirstNotEmpty [Xlog.get log "oplace", Xlog.get log "place"]) log
  NormalizeMilestoneFields env log

/-- Lines 108 to 120 of `NormalizeLog`: the logfile branch. -/
def normalizeLogfile (env : Env) (log : Xlog) : Xlog :=
  let log := Xlog.set "vmsg" (FirstNotEmpty [Xlog.get log "vmsg", Xlog.get log "tmsg"]) log
  let log := Xlog.set "map" (NormalizeMapName (Xlog.get log "map")) log
  let log := Xlog.set "killermap" (NormalizeMapName (Xlog.get log "killermap")) log
  let log := Xlog.set "ikiller"
    (FirstNotEmpty [Xlog.get log "ikiller", Xlog.get log "killer"]) log
  let log := Xlog.set "ckiller"
    (env.NormalizeKiller (FirstNotEmpty [Xlog.get log "killer", Xlog.get log "ktyp"])
      (Xlog.get log "killer") (Xlog.get log "killer_flags")) log
  let log := Xlog.set "cikiller"
    (env.NormalizeKiller (Xlog.get log "ikiller") (Xlog.get log "ikiller") "") log
  let log := Xlog.set "kmod" (env.NormalizeKmod (Xlog.get log "killer")) log
  let log := Xlog.set "ckaux" (env.NormalizeKaux (Xlog.get log "kaux")) log
  Xlog.set "rend" (Xlog.get log "end") log

/-- The function `NormalizeLog`: the record and the error it returns. -/
def NormalizeLog (env : Env) (log : Xlog) : Xlog × Option XlogError :=
  match Xlog.lookup "src" log with
  | none => (log, some XlogError.ErrNoSrc)
  | some _ =>
    let log := normalizeVersion env log
    let log := normalizeCommon env log
    let milestone := decide («Type» log = XlogType.Milestone)
    let log := if milestone then normalizeMilestone env log else normalizeLogfile env log
    let log := CanonicalizeFields env.fieldInputTransforms log
    let log := sanitizeGold env log
    (log, none)

/-- The keys assigned by lines 100 to 124 of `NormalizeLog` other than
through the remap table: those of the two branches and of `sanitizeGold`. -/
def lateKeys : List String :=
  ["verb", "noun", "rtime", "oplace", "vmsg", "map", "killermap", "ikiller", "ckiller",
    "cikiller", "kmod", "ckaux", "rend", "gold", "goldfound", "goldspent"]

/-- The identity environment with a given `field-input-transforms` table. -/
def Env.remapping (table : List (String × List (String × String))) : Env :=
  { Env.identity with fieldInputTransforms := table }

/-- One unconditional assignment `log[k] = f(log)`, as a function of the
record: the stages of `NormalizeLog` are chains of these. -/
def assign (k : String) (f : Xlog → String) (log : Xlog) : Xlog :=
  Xlog.set k (f log) log

/-- One guarded assignment `if c(log) then log[k] = f(log)`. -/
def assignWhen (c : Xlog → Prop) [DecidablePred c] (k : String) (f : Xlog → String)
    (log : Xlog) : Xlog :=
  if c log then Xlog.set k (f log) log else log

/-! ## `xlognaming.go` -/

/-- The method `XlogType.String`. -/
def XlogType.String (x : XlogType) : String :=
  match x with
  | XlogType.Log => "logfile"
  | XlogType.Milestone => "milestones"
  | XlogType.Unknown => "unk"

/-- The test `strings.Index(s, sub) != -1`: whether `sub` occurs in `s`. -/
def hasSubstring (sub : List Char) : List Char → Bool
  | [] => sub.isEmpty
  | x :: xs => sub.isPrefixOf (x :: xs) || hasSubstring sub xs

/-- The function `XlogFileType`. -/
def XlogFileType (filename : String) : XlogType :=
  if hasSubstring "logfile".data filename.data then XlogType.Log
  else if hasSubstring "milestone".data filename.data then XlogType.Milestone
  else XlogType.Unknown

/-- The function `XlogQualifiedName`. -/
def XlogQualifiedName (server game version qualifier : String) (xlogtype : XlogType) : String :=
  let base := "remote." ++ server ++ "-" ++ xlogtype.String ++ "-" ++ version
  let base := if game ≠ "" then base ++ "-" ++ game else base
  if qualifier ≠ "" then base ++ "-" ++ qualifier else base

/-- The sequence of literal characters of a string under the `(?i)` flag. -/
def Regex.litFoldSeq : List Char → Regex
  | [] => Regex.empty
  | c :: cs => Regex.cat (Regex.chr (CharClass.litFold c)) (Regex.litFoldSeq cs)

/-- A literal string under the `(?i)` flag. -/
def Regex.strFold (s : String) : Regex := Regex.litFoldSeq s.data

/-- The alternation `r1|r2|...` of a list of patterns, `(?:)` for none. -/
def Regex.altList : List Regex → Regex
  | [] => Regex.empty
  | [r] => r
  | r :: rs => Regex.alt r (Regex.altList rs)

open Regex CharClass in
/-- The pattern `(?i)\b(?:git|svn|master|trunk)\b`. -/
def rGitVersion : Regex :=
  cat wordBoundary (cat (alt (strFold "git") (alt (strFold "svn")
    (alt (strFold "master") (strFold "trunk")))) wordBoundary)

open Regex CharClass in
/-- The pattern `\d+[.]\d+`. -/
def rEmbeddedVersion : Regex :=
  cat (plus true digit) (cat (chr (lit '.')) (plus true digit))

open Regex CharClass in
/-- The pattern `\d{2}\b`. -/
def rEmbeddedVersionKey : Regex :=
  cat (chr digit) (cat (chr digit) wordBoundary)

/-- The function `XlogGameVersion`; `version.ExpandVersionKey` is a
parameter. -/
def XlogGameVersion (ExpandVersionKey : String → String) (filename : String) : String :=
  if rGitVersion.MatchString filename then "git"
  else if rEmbeddedVersion.FindString filename ≠ "" then rEmbeddedVersion.FindString filename
  else if rEmbeddedVersionKey.FindString filename ≠ "" then
    ExpandVersionKey (rEmbeddedVersionKey.FindString filename)
  else "any"

open Regex CharClass in
/-- The pattern `^remote.(\w+)-[\w.-]+$`; its dot is not escaped. -/
def rXlogQualifiedName : Regex :=
  cat bot (cat (str "remote") (cat (chr any) (cat (group 1 (plus true word))
    (cat (chr (lit '-')) (cat (plus true (union word (union (lit '.') (lit '-')))) eot)))))

/-- The function `IsXlogQualifiedName`. -/
def IsXlogQualifiedName (filename : String) : Bool :=
  decide (rXlogQualifiedName.FindString filename ≠ "")

/-- The type `typeMatcher`: a compiled pattern and the name of its type. -/
structure typeMatcher where
  re : Regex
  typeName : String

/-- The type `TextTypeLookup`. -/
structure TextTypeLookup where
  TypeMatchers : List typeMatcher
  DefaultType : String

/-- The method `TextTypeLookup.FindType`. -/
def TextTypeLookup.FindType (g : TextTypeLookup) (filename : String) : String :=
  match g.TypeMatchers.find? (fun m => m.re.MatchString filename) with
  | some m => m.typeName
  | none => g.DefaultType

/-- The function `createTypeMatcher`: `regexp.QuoteMeta` makes every tag a
literal, and the tags are joined into `\b(?:tag1|tag2|...)\b`. -/
def createTypeMatcher (tags : List String) (tagType : String) : typeMatcher :=
  { re := Regex.cat Regex.wordBoundary
      (Regex.cat (Regex.altList (tags.map Regex.str)) Regex.wordBoundary),
    typeName := tagType }

/-- A value of the `game-type-tags` table: a string, a list of strings, or
a value of another type. -/
inductive TagValue where
  | text (s : String)
  | list (tags : List String)
  | other

/-- The function `createTextTypeMatcher` over the entries of the table in
the order in which the `range` loop visits them; `none` stands for the panic
of the type assertion `v.(string)` on a `DEFAULT` entry that is not a
string. -/
def createTextTypeMatcher (typeTagsMap : List (String × TagValue)) : Option TextTypeLookup :=
  typeTagsMap.foldl (fun acc kv =>
    match acc with
    | none => none
    | some lookup =>
      if kv.1 = "DEFAULT" then
        match kv.2 with
        | TagValue.text s => some { lookup with DefaultType := s }
        | _ => none
      else
        match kv.2 with
        | TagValue.text tags =>
          some { lookup with
            TypeMatchers := lookup.TypeMatchers ++ [createTypeMatcher [tags] kv.1] }
        | TagValue.list tags =>
          some { lookup with
            TypeMatchers := lookup.TypeMatchers ++ [createTypeMatcher tags kv.1] }
        | TagValue.other => some lookup)
    (some { TypeMatchers := [], DefaultType := "" })

/-- The function `XlogGame`; the package variable `gameTypeMatcher` is a
parameter. -/
def XlogGame (gameTypeMatcher : TextTypeLookup) (filename : String) : String :=
  gameTypeMatcher.FindType filename

/-- The function `XlogServerType`. -/
def XlogServerType (gameTypeMatcher : TextTypeLookup) (filename : String) :
    String × String × XlogType :=
  match rXlogQualifiedName.FindStringSubmatch filename with
  | none => ("", "", XlogType.Unknown)
  | some m => (m.getD 1 "", XlogGame gameTypeMatcher filename, XlogFileType filename)

/-- A lookup with the types `sprint` and `zotdef` and the default `crawl`. -/
def sampleLookup : TextTypeLookup :=
  { TypeMatchers := [createTypeMatcher ["spr", "sprint"] "sprint",
      createTypeMatcher ["zd", "zotdef"] "zotdef"],
    DefaultType := "crawl" }

/-! ## `place.CanonicalPlace` -/

/-- The case-insensitive lookup of a token in the alias table. -/
def aliasLookup (aliases : List (String × String)) (token : List Char) : Option String :=
  (aliases.find? (fun e => e.1.data.map Char.toLower == token.map Char.toLower)).map (·.2)

/-- Modelled from the spec: `place.CanonicalPlace` is not among the sources,
only its test is. Spec 4.6: the input is a token optionally suffixed with
`:<depth>`; the token is looked up case-insensitively in the configured
alias table; an unmatched token passes through unchanged; the depth suffix
is re-applied after the alias substitution. -/
def CanonicalPlace (aliases : List (String × String)) (place : String) : String :=
  match aliasLookup aliases (place.data.takeWhile (fun c => c ≠ ':')) with
  | some canonical => canonical ++ String.mk (place.data.dropWhile (fun c => c ≠ ':'))
  | none => String.mk (place.data.takeWhile (fun c => c ≠ ':')) ++
      String.mk (place.data.dropWhile (fun c => c ≠ ':'))

/-- The aliases named by the spec. -/
def sampleAliases : List (String × String) :=
  [("shoal", "Shoals"), ("v", "Vaults"), ("ice", "IceCv"), ("labyrinth", "Lab")]

/-! ## The version-tag rules in the words of the spec -/

/-- Whether the place between two texts is an ASCII word boundary: exactly
one of the character before it and the character after it is a word
character. -/
def wordBoundaryBetween (before after : List Char) : Bool :=
  (match before.getLast? with | some c => isWordChar c | none => false) !=
  (match after.head? with | some c => isWordChar c | none => false)

/-- Whether a text spells a word when case is ignored. -/
def spellsIgnoringCase : List Char → List Char → Bool
  | [], [] => true
  | c :: w, x :: t => foldsTo c x && spellsIgnoringCase w t
  | _, _ => false

/-- The text `word`, standing between `before` and `after`, is one of `git`,
`svn`, `master`, `trunk` as a whole word, case ignored. -/
def VcsWordAt (before word after : List Char) : Prop :=
  (∃ w ∈ ["git", "svn", "master", "trunk"], spellsIgnoringCase (String.data w) word = true) ∧
  wordBoundaryBetween before (word ++ after) = true ∧
  wordBoundaryBetween (before ++ word) after = true

/-- The text `m` has the form `<digits>.<digits>`. -/
def DottedAt (_before m _after : List Char) : Prop :=
  ∃ d1 d2, m = d1 ++ '.' :: d2 ∧ d1 ≠ [] ∧ d2 ≠ [] ∧
    (∀ c ∈ d1, c.isDigit = true) ∧ ∀ c ∈ d2, c.isDigit = true

/-- The text `m`, standing before `after`, is two digits that end at a word
boundary. -/
def VersionKeyAt (before m after : List Char) : Prop :=
  (∃ c1 c2, m = [c1, c2] ∧ c1.isDigit = true ∧ c2.isDigit = true) ∧
  wordBoundaryBetween (before ++ m) after = true

/-- The text contains an occurrence of the given kind. -/
def Contains (Occ : List Char → List Char → List Char → Prop) (text : List Char) : Prop :=
  ∃ a m b, text = a ++ m ++ b ∧ Occ a m b

/-- The text `m` is the leftmost occurrence of the given kind in the text,
and the longest of those that start where it starts. -/
def Leftmost (Occ : List Char → List Char → List Char → Prop) (text m : List Char) : Prop :=
  ∃ a b, text = a ++ m ++ b ∧ Occ a m b ∧
    ∀ a' m' b', text = a' ++ m' ++ b' → Occ a' m' b' →
      a.length < a'.length ∨ (a.length = a'.length ∧ m'.length ≤ m.length)

/-! ## Records: reads after writes -/

namespace Xlog

theorem lookup_set (k k' v : String) (log : Xlog) :
    lookup k' (set k v log) = if k = k' then some v else lookup k' log := by
  induction log with
  | nil => simp [set, lookup]
  | cons p r ih =>
    obtain ⟨a, b⟩ := p
    by_cases h : a = k
    · subst h; by_cases h' : a = k' <;> simp [set, lookup, h']
    · by_cases h' : k = k'
      · subst h'; simp [set, lookup, h, ih]
      · simp [set, lookup, h, ih, h']

theorem get_set (k k' v : String) (log : Xlog) :
    get (set k v log) k' = if k = k' then v else get log k' := by
  unfold get
  rw [lookup_set]
  split <;> rfl

end Xlog

/-! ## The milestone decoder: frame lemmas -/

theorem milestoneSwitch_set_verb (env : Env) (log : Xlog) (x verb noun : String) :
    milestoneSwitch env (Xlog.set "verb" x log) verb noun = milestoneSwitch env log verb noun := by
  simp [milestoneSwitch, Xlog.get_set]

/-- The record after step A of `NormalizeMilestoneFields`. -/
theorem NormalizeMilestoneFields_eq (env : Env) (log : Xlog) :
    NormalizeMilestoneFields env log =
      (if (milestoneSwitch env log (mappedVerb env log) (Xlog.get log "noun")).2 ≠ "" then
        Xlog.set "noun" (milestoneSwitch env log (mappedVerb env log) (Xlog.get log "noun")).2
          (Xlog.set "verb" (milestoneSwitch env log (mappedVerb env log) (Xlog.get log "noun")).1
            (match Xlog.lookup (Xlog.get log "verb") env.milestoneVerbMap with
              | some mapped => Xlog.set "verb" mapped log
              | none => log))
      else
        Xlog.set "verb" (milestoneSwitch env log (mappedVerb env log) (Xlog.get log "noun")).1
          (match Xlog.lookup (Xlog.get log "verb") env.milestoneVerbMap with
            | some mapped => Xlog.set "verb" mapped log
            | none => log)) := by
  unfold NormalizeMilestoneFields
  cases h : Xlog.lookup (Xlog.get log "verb") env.milestoneVerbMap <;>
    simp [milestoneSwitch_set_verb, Xlog.get_set]

theorem NormalizeMilestoneFields_lookup (env : Env) (log : Xlog) (k : String) :
    Xlog.lookup k (NormalizeMilestoneFields env log) =
      if k = "noun" ∧ (milestoneSwitch env log (mappedVerb env log) (Xlog.get log "noun")).2 ≠ ""
      then some (milestoneSwitch env log (mappedVerb env log) (Xlog.get log "noun")).2
      else if k = "verb"
      then some (milestoneSwitch env log (mappedVerb env log) (Xlog.get log "noun")).1
      else Xlog.lookup k log := by
  rw [NormalizeMilestoneFields_eq]
  cases h : Xlog.lookup (Xlog.get log "verb") env.milestoneVerbMap <;>
    by_cases h1 : (milestoneSwitch env log (mappedVerb env log) (Xlog.get log "noun")).2 = "" <;>
    by_cases h2 : k = "noun" <;> by_cases h3 : k = "verb" <;>
    simp_all [Xlog.lookup_set, eq_comm]

/-! ## `NormalizeLog`: which entries each stage can change -/

theorem CanonicalizeFields_lookup_congr (table : List (String × List (String × String)))
    (k : String) (a b : Xlog) (h : Xlog.lookup k a = Xlog.lookup k b) :
    Xlog.lookup k (CanonicalizeFields table a) = Xlog.lookup k (CanonicalizeFields table b) := by
  induction table generalizing a b with
  | nil => simpa [CanonicalizeFields] using h
  | cons ft r ih =>
    simp only [CanonicalizeFields, List.foldl_cons]
    apply ih
    by_cases hk : ft.1 = k
    · subst hk
      rw [h]
      cases hb : Xlog.lookup ft.1 b <;> simp [hb, h, Xlog.lookup_set]
    · cases ha : Xlog.lookup ft.1 a <;> cases hb : Xlog.lookup ft.1 b <;>
        simp [Xlog.lookup_set, hk, h]

theorem CanonicalizeFields_lookup_not_listed (table : List (String × List (String × String)))
    (k : String) (log : Xlog) (h : ∀ e ∈ table, e.1 ≠ k) :
    Xlog.lookup k (CanonicalizeFields table log) = Xlog.lookup k log := by
  induction table generalizing log with
  | nil => simp [CanonicalizeFields]
  | cons ft r ih =>
    simp only [CanonicalizeFields, List.foldl_cons]
    have hr : ∀ e ∈ r, e.1 ≠ k := fun e he => h e (by simp [he])
    have hft : ft.1 ≠ k := h ft (by simp)
    have := ih (match Xlog.lookup ft.1 log with
      | some value => Xlog.set ft.1 (applyTransforms ft.2 value) log
      | none => log) hr
    simp only [CanonicalizeFields] at this
    rw [this]
    cases hl : Xlog.lookup ft.1 log <;> simp [Xlog.lookup_set, hft]

theorem sanitizeGold_lookup (env : Env) (log : Xlog) (k : String) (hk : k ∉ lateKeys) :
    Xlog.lookup k (sanitizeGold env log) = Xlog.lookup k log := by
  simp only [lateKeys, List.mem_cons, List.mem_singleton, not_or, List.not_mem_nil,
    not_false_eq_true, and_true] at hk
  unfold sanitizeGold
  split
  · simp [Xlog.lookup_set, eq_comm, hk]
  · rfl

theorem normalizeMilestone_lookup (env : Env) (log : Xlog) (k : String) (hk : k ∉ lateKeys) :
    Xlog.lookup k (normalizeMilestone env log) = Xlog.lookup k log := by
  simp only [lateKeys, List.mem_cons, List.mem_singleton, not_or, List.not_mem_nil,
    not_false_eq_true, and_true] at hk
  unfold normalizeMilestone
  simp only [NormalizeMilestoneFields_lookup]
  simp [Xlog.lookup_set, eq_comm, hk]

theorem normalizeLogfile_lookup (env : Env) (log : Xlog) (k : String) (hk : k ∉ lateKeys) :
    Xlog.lookup k (normalizeLogfile env log) = Xlog.lookup k log := by
  simp only [lateKeys, List.mem_cons, List.mem_singleton, not_or, List.not_mem_nil,
    not_false_eq_true, and_true] at hk
  unfold normalizeLogfile
  simp [Xlog.lookup_set, eq_comm, hk]

/-- The record `NormalizeLog` returns when `src` is present. -/
theorem NormalizeLog_of_src (env : Env) (log : Xlog) (h : Xlog.lookup "src" log ≠ none) :
    NormalizeLog env log =
      (sanitizeGold env (CanonicalizeFields env.fieldInputTransforms
        (if «Type» (normalizeCommon env (normalizeVersion env log)) = XlogType.Milestone
          then normalizeMilestone env (normalizeCommon env (normalizeVersion env log))
          else normalizeLogfile env (normalizeCommon env (normalizeVersion env log)))), none) := by
  unfold NormalizeLog
  cases hs : Xlog.lookup "src" log with
  | none => exact absurd hs h
  | some v => simp

/-- Outside the late keys, an entry of the result is determined by the same
entry after line 98. -/
theorem NormalizeLog_lookup_congr (env : Env) (a b : Xlog) (k : String)
    (ha : Xlog.lookup "src" a ≠ none) (hb : Xlog.lookup "src" b ≠ none) (hk : k ∉ lateKeys)
    (h : Xlog.lookup k (normalizeCommon env (normalizeVersion env a)) =
      Xlog.lookup k (normalizeCommon env (normalizeVersion env b))) :
    Xlog.lookup k (NormalizeLog env a).1 = Xlog.lookup k (NormalizeLog env b).1 := by
  rw [NormalizeLog_of_src env a ha, NormalizeLog_of_src env b hb]
  simp only [sanitizeGold_lookup _ _ _ hk]
  apply CanonicalizeFields_lookup_congr
  split <;> split <;>
    simp only [normalizeMilestone_lookup _ _ _ hk, normalizeLogfile_lookup _ _ _ hk, h]

/-- Outside the late keys and the remap table, an entry of the result is the
entry after line 98. -/
theorem NormalizeLog_lookup_early (env : Env) (log : Xlog) (k : String)
    (hs : Xlog.lookup "src" log ≠ none) (hk : k ∉ lateKeys)
    (ht : ∀ e ∈ env.fieldInputTransforms, e.1 ≠ k) :
    Xlog.lookup k (NormalizeLog env log).1 =
      Xlog.lookup k (normalizeCommon env (normalizeVersion env log)) := by
  rw [NormalizeLog_of_src env log hs]
  simp only [sanitizeGold_lookup _ _ _ hk, CanonicalizeFields_lookup_not_listed _ _ _ ht]
  split <;> simp only [normalizeMilestone_lookup _ _ _ hk, normalizeLogfile_lookup _ _ _ hk]

/-! ## `NormalizeLog`: the entries after line 98 -/

theorem lookup_assign (k k' : String) (f : Xlog → String) (log : Xlog) :
    Xlog.lookup k' (assign k f log) = if k = k' then some (f log) else Xlog.lookup k' log := by
  simp [assign, Xlog.lookup_set]

theorem get_assign (k k' : String) (f : Xlog → String) (log : Xlog) :
    Xlog.get (assign k f log) k' = if k = k' then f log else Xlog.get log k' := by
  simp [assign, Xlog.get_set]

theorem lookup_assignWhen (c : Xlog → Prop) [DecidablePred c] (k k' : String)
    (f : Xlog → String) (log : Xlog) :
    Xlog.lookup k' (assignWhen c k f log) =
      if k = k' ∧ c log then some (f log) else Xlog.lookup k' log := by
  by_cases h : c log <;> by_cases h' : k = k' <;> simp [assignWhen, Xlog.lookup_set, h, h']

theorem get_assignWhen (c : Xlog → Prop) [DecidablePred c] (k k' : String)
    (f : Xlog → String) (log : Xlog) :
    Xlog.get (assignWhen c k f log) k' = if k = k' ∧ c log then f log else Xlog.get log k' := by
  by_cases h : c log <;> by_cases h' : k = k' <;> simp [assignWhen, Xlog.get_set, h, h']

theorem normalizeCommon_eq (env : Env) (log : Xlog) :
    normalizeCommon env log =
      assign "game_key" (fun log =>
        Xlog.get log "name" ++ ":" ++ Xlog.get log "src" ++ ":" ++ Xlog.get log "rstart")
      (assign "rstart" (fun log => Xlog.get log "start")
      (assign "crace" (fun log => env.NormalizeRace (Xlog.get log "race"))
      (assign "god" (fun log => env.CanonicalGod (Xlog.get log "god"))
      (assign "br" (fun log => env.CanonicalPlace (Xlog.get log "br"))
      (assign "oplace" (fun log => env.CanonicalPlace (Xlog.get log "oplace"))
      (assign "place" (fun log => env.CanonicalPlace (Xlog.get log "place"))
      (assignWhen (fun log => Xlog.get log "ntv" = "") "ntv" (fun _ => "0")
      (assign "wiz" (fun log => NormalizeBool (Xlog.get log "wiz"))
      (assign "tiles" (fun log => NormalizeBool (Xlog.get log "tiles")) log))))))))) := rfl

theorem vlong_step (env : Env) (log : Xlog) :
    (match Xlog.lookup "vlong" log with
      | some vlong => Xlog.set "vlongnum" (Nat.repr (env.VersionNumericId vlong)) log
      | none => log) =
    assignWhen (fun log => Xlog.lookup "vlong" log ≠ none) "vlongnum"
      (fun log => Nat.repr (env.VersionNumericId (Xlog.get log "vlong"))) log := by
  cases h : Xlog.lookup "vlong" log <;> simp [assignWhen, h, Xlog.get]

theorem normalizeVersion_eq (env : Env) (log : Xlog) :
    normalizeVersion env log =
      assignWhen (fun log => Xlog.lookup "vlong" log ≠ none) "vlongnum"
        (fun log => Nat.repr (env.VersionNumericId (Xlog.get log "vlong")))
      (assign "cvnum" (fun log => Nat.repr (env.VersionNumericId (Xlog.get log "cv")))
      (assign "vnum" (fun log => Nat.repr (env.VersionNumericId (Xlog.get log "v")))
      (assignWhen (fun log => Xlog.get log "alpha" ≠ "") "cv"
        (fun log => Xlog.get log "cv" ++ "-a")
      (assignWhen (fun log => env.IsAlpha (Xlog.get log "v") = true) "alpha" (fun _ => "t")
      (assign "cv" (fun log => env.MajorVersion (Xlog.get log "v"))
      (assign "v" (fun log => env.FullVersion (Xlog.get log "v")) log)))))) := by
  unfold normalizeVersion
  exact vlong_step env _

theorem early_lookup_input (env : Env) (log : Xlog) (k : String)
    (hk : k = "name" ∨ k = "src" ∨ k = "start") :
    Xlog.lookup k (normalizeCommon env (normalizeVersion env log)) = Xlog.lookup k log := by
  rw [normalizeCommon_eq, normalizeVersion_eq]
  rcases hk with rfl | rfl | rfl <;> simp [lookup_assign, lookup_assignWhen]

theorem early_lookup_derived (env : Env) (log : Xlog) :
    Xlog.lookup "rstart" (normalizeCommon env (normalizeVersion env log)) =
      some (Xlog.get log "start") ∧
    Xlog.lookup "game_key" (normalizeCommon env (normalizeVersion env log)) =
      some (Xlog.get log "name" ++ ":" ++ Xlog.get log "src" ++ ":" ++ Xlog.get log "start") := by
  rw [normalizeCommon_eq, normalizeVersion_eq]
  constructor <;> simp [lookup_assign, lookup_assignWhen, get_assign, get_assignWhen]

theorem early_lookup_version (env : Env) (log : Xlog) :
    Xlog.lookup "v" (normalizeCommon env (normalizeVersion env log)) =
      some (env.FullVersion (Xlog.get log "v")) ∧
    Xlog.lookup "alpha" (normalizeCommon env (normalizeVersion env log)) =
      (if env.IsAlpha (env.FullVersion (Xlog.get log "v")) then some "t"
        else Xlog.lookup "alpha" log) ∧
    Xlog.lookup "cv" (normalizeCommon env (normalizeVersion env log)) =
      some (if (if env.IsAlpha (env.FullVersion (Xlog.get log "v")) then "t"
          else Xlog.get log "alpha") ≠ ""
        then env.MajorVersion (env.FullVersion (Xlog.get log "v")) ++ "-a"
        else env.MajorVersion (env.FullVersion (Xlog.get log "v"))) ∧
    Xlog.lookup "vnum" (normalizeCommon env (normalizeVersion env log)) =
      some (Nat.repr (env.VersionNumericId (env.FullVersion (Xlog.get log "v")))) ∧
    Xlog.lookup "cvnum" (normalizeCommon env (normalizeVersion env log)) =
      some (Nat.repr (env.VersionNumericId
        (if (if env.IsAlpha (env.FullVersion (Xlog.get log "v")) then "t"
            else Xlog.get log "alpha") ≠ ""
          then env.MajorVersion (env.FullVersion (Xlog.get log "v")) ++ "-a"
          else env.MajorVersion (env.FullVersion (Xlog.get log "v"))))) := by
  rw [normalizeCommon_eq, normalizeVersion_eq]
  by_cases ha : env.IsAlpha (env.FullVersion (Xlog.get log "v")) = true <;>
  by_cases hb : Xlog.get log "alpha" = "" <;>
  simp [lookup_assign, lookup_assignWhen, get_assign, get_assignWhen, ha, hb]

/-! ## The matcher on texts of a known shape -/

namespace Regex

theorem run_litSeq (l t : List Char) (k : MState → Option (List (List Char)))
    (p : Option Char) (caps : List (List Char)) :
    run (litSeq l) k ⟨p, l ++ t, caps⟩ = k ⟨prevAfter p l, t, caps⟩ := by
  induction l generalizing p with
  | nil => simp [litSeq, run, prevAfter]
  | cons c cs ih => simp [litSeq, run, prevAfter, CharClass.test, ih]

theorem run_str (a : String) (t : List Char) (k : MState → Option (List (List Char)))
    (p : Option Char) (caps : List (List Char)) :
    run (str a) k ⟨p, a.data ++ t, caps⟩ = k ⟨prevAfter p a.data, t, caps⟩ :=
  run_litSeq a.data t k p caps

/-- Greedy repetition over a run of class characters that ends before a
character outside the class (or the end of the text): if the continuation
accepts after the whole run, that is the match. -/
theorem starGreedy_run (c : CharClass) (k : MState → Option (List (List Char)))
    (caps : List (List Char)) (w t : List Char) (m : List (List Char))
    (hw : ∀ x ∈ w, c.test x = true) (ht : ∀ y ∈ t.head?, c.test y = false)
    (p : Option Char) (hk : k ⟨prevAfter p w, t, caps⟩ = some m) :
    starGreedy c k caps p (w ++ t) = some m := by
  induction w generalizing p with
  | nil =>
    cases t with
    | nil => simpa [starGreedy, prevAfter] using hk
    | cons y ys =>
      have hy : c.test y = false := ht y (by simp)
      simpa [starGreedy, prevAfter, hy] using hk
  | cons x xs ih =>
    have hx : c.test x = true := hw x (by simp)
    have := ih (fun y hy => hw y (by simp [hy])) (some x) (by simpa [prevAfter] using hk)
    simp [starGreedy, hx, this]

/-- Lazy repetition over a run of class characters: if the continuation
rejects at every cursor inside the run and accepts after it, that is the
match. -/
theorem starLazy_run (c : CharClass) (k : MState → Option (List (List Char)))
    (caps : List (List Char)) (w t : List Char) (m : List (List Char))
    (hw : ∀ x ∈ w, c.test x = true) (p : Option Char)
    (hfail : ∀ w1 w2, w = w1 ++ w2 → w2 ≠ [] → k ⟨prevAfter p w1, w2 ++ t, caps⟩ = none)
    (hk : k ⟨prevAfter p w, t, caps⟩ = some m) :
    starLazy c k caps p (w ++ t) = some m := by
  induction w generalizing p with
  | nil =>
    cases t with
    | nil => simpa [starLazy, prevAfter] using hk
    | cons y ys =>
      simp only [prevAfter] at hk
      simp [starLazy, hk]
  | cons x xs ih =>
    have hx : c.test x = true := hw x (by simp)
    have h0 : k ⟨p, x :: (xs ++ t), caps⟩ = none := by
      simpa [prevAfter] using hfail [] (x :: xs) rfl (by simp)
    have := ih (fun y hy => hw y (by simp [hy])) (some x)
      (fun w1 w2 e hne => by simpa [prevAfter] using hfail (x :: w1) w2 (by simp [e]) hne)
      (by simpa [prevAfter] using hk)
    simp [starLazy, hx, this, h0]

theorem search_of_matchAt (re : Regex) (p : Option Char) (l : List Char)
    (m : List (List Char)) (h : matchAt re p l = some m) : search re p l = some m := by
  cases l with
  | nil => simpa [search] using h
  | cons x xs => simp [search, h]

theorem run_cat (r t : Regex) (k : MState → Option (List (List Char))) (s : MState) :
    run (cat r t) k s = run r (run t k) s := rfl

theorem take_length_sub (w t : List Char) :
    (w ++ t).take ((w ++ t).length - t.length) = w := by
  simp

/-- A captured greedy `c+` over a non-empty run of class characters that ends
before a character outside the class. -/
theorem run_group_plus_greedy (n : Nat) (c : CharClass)
    (k : MState → Option (List (List Char))) (caps : List (List Char)) (w t : List Char)
    (m : List (List Char)) (hne : w ≠ []) (hw : ∀ x ∈ w, c.test x = true)
    (ht : ∀ y ∈ t.head?, c.test y = false) (p : Option Char)
    (hk : k ⟨prevAfter p w, t, caps.set n w⟩ = some m) :
    run (group n (plus true c)) k ⟨p, w ++ t, caps⟩ = some m := by
  obtain ⟨x, xs, rfl⟩ := List.exists_cons_of_ne_nil hne
  have hx : c.test x = true := hw x (by simp)
  simp only [run, plus, List.cons_append, hx, if_true]
  apply starGreedy_run _ _ _ xs t m (fun y hy => hw y (by simp [hy])) ht
  have e := take_length_sub (x :: xs) t
  simp only [List.cons_append] at e
  show k ⟨prevAfter (some x) xs, t,
    caps.set n ((x :: (xs ++ t)).take ((x :: (xs ++ t)).length - t.length))⟩ = some m
  rw [e]
  exact hk

/-- A captured lazy `c*?` over a run of class characters. -/
theorem run_group_star_lazy (n : Nat) (c : CharClass)
    (k : MState → Option (List (List Char))) (caps : List (List Char)) (w t : List Char)
    (m : List (List Char)) (hw : ∀ x ∈ w, c.test x = true) (p : Option Char)
    (hfail : ∀ w1 w2, w = w1 ++ w2 → w2 ≠ [] →
      k ⟨prevAfter p w1, w2 ++ t, caps.set n w1⟩ = none)
    (hk : k ⟨prevAfter p w, t, caps.set n w⟩ = some m) :
    run (group n (star false c)) k ⟨p, w ++ t, caps⟩ = some m := by
  simp only [run, Bool.false_eq_true, if_false]
  apply starLazy_run _ _ _ w t m hw
  · intro w1 w2 e hne
    have := take_length_sub w1 (w2 ++ t)
    subst e
    simp only [List.append_assoc] at this ⊢
    rw [this]
    exact hfail w1 w2 rfl hne
  · have := take_length_sub w t
    simp only [this]
    exact hk

/-- The tail `\.?$`: it accepts before a final dot and at the end of the
text, and nowhere else. -/
theorem run_optDot_eot (k : MState → Option (List (List Char))) (p : Option Char)
    (l : List Char) (caps : List (List Char)) :
    run (cat (opt (chr (.lit '.'))) eot) k ⟨p, l, caps⟩ =
      if l = ['.'] then k ⟨some '.', [], caps⟩
      else if l = [] then k ⟨p, [], caps⟩ else none := by
  cases l with
  | nil => simp [run, opt]
  | cons x xs =>
    by_cases hx : x = '.'
    · subst hx
      cases xs with
      | nil => cases h : k ⟨some '.', [], caps⟩ <;> simp [run, opt, CharClass.test, h]
      | cons y ys => simp [run, opt, CharClass.test]
    · simp [run, opt, CharClass.test, hx]

/-- The pattern `(\w+) (.*?)\.?$` on a word, a space, a line without newline
and a final dot. -/
theorem rActionWord_search (w rest : List Char) (hne : w ≠ [])
    (hw : ∀ c ∈ w, isWordChar c = true) (hr : ∀ c ∈ rest, c ≠ '\n') :
    search rActionWord none (w ++ ' ' :: (rest ++ ['.'])) =
      some [w ++ ' ' :: (rest ++ ['.']), w, rest] := by
  apply search_of_matchAt
  have hng : numGroups rActionWord = 3 := by decide
  simp only [matchAt, hng]
  rw [rActionWord, run]
  rw [run_cat]
  apply run_group_plus_greedy 1 _ _ _ w _ _ hne (fun x hx => by simpa [CharClass.test] using hw x hx)
  · intro y hy
    simp at hy; subst hy; decide
  rw [run_cat]
  have e1 : ' ' :: (rest ++ ['.']) = " ".data ++ (rest ++ ['.']) := rfl
  rw [e1, run_str, run_cat]
  apply run_group_star_lazy 2 _ _ _ rest _ _
    (fun x hx => by simpa [CharClass.test] using hr x hx)
  · intro w1 w2 _ hne2
    rw [run_optDot_eot]
    cases w2 with
    | nil => exact absurd rfl hne2
    | cons y ys => simp
  · rw [run_optDot_eot]
    simp [List.replicate]

theorem run_chr_cons (c : CharClass) (k : MState → Option (List (List Char)))
    (p : Option Char) (x : Char) (xs : List Char) (caps : List (List Char)) :
    run (chr c) k ⟨p, x :: xs, caps⟩ = if c.test x then k ⟨some x, xs, caps⟩ else none := rfl

theorem run_opt_of_some (r : Regex) (k : MState → Option (List (List Char))) (s : MState)
    (m : List (List Char)) (h : run r k s = some m) : run (opt r) k s = some m := by
  simp [opt, run, h]

theorem run_opt_of_none (r : Regex) (k : MState → Option (List (List Char))) (s : MState)
    (h : run r k s = none) : run (opt r) k s = k s := by
  simp [opt, run, h]

/-- The pattern `found an? (\S+) rune` on `found a` or `found an`, a space, a
non-empty name without white space, and ` rune` followed by anything. -/
theorem rFoundRune_search (an : Bool) (r s : List Char) (hne : r ≠ [])
    (hr : ∀ c ∈ r, isPerlSpace c = false) :
    search rFoundRune none
        ("found a".data ++ ((if an then ['n'] else []) ++ ' ' :: (r ++ (" rune".data ++ s)))) =
      some ["found a".data ++ ((if an then ['n'] else []) ++ ' ' :: (r ++ " rune".data)), r] := by
  apply search_of_matchAt
  have hng : numGroups rFoundRune = 2 := by decide
  simp only [matchAt, hng]
  rw [rFoundRune, run, run_cat, run_str, run_cat]
  generalize hK : (fun e : MState => (fun e : MState => some e.caps) ⟨e.prev, e.rest,
    e.caps.set 0 (List.take
      (({ prev := none, rest := "found a".data ++
          ((if an then ['n'] else []) ++ ' ' :: (r ++ (" rune".data ++ s))),
          caps := List.replicate (max 1 2) [] } : MState).rest.length - e.rest.length)
      ({ prev := none, rest := "found a".data ++
          ((if an then ['n'] else []) ++ ' ' :: (r ++ (" rune".data ++ s))),
          caps := List.replicate (max 1 2) [] } : MState).rest)⟩) = K
  have main : ∀ p, run (cat (str " ") (cat (group 1 (plus true .notSpace)) (str " rune"))) K
      ⟨p, ' ' :: (r ++ (" rune".data ++ s)), List.replicate (max 1 2) []⟩ =
      some ["found a".data ++ ((if an then ['n'] else []) ++ ' ' :: (r ++ " rune".data)), r] := by
    intro p
    have e1 : ' ' :: (r ++ (" rune".data ++ s)) = " ".data ++ (r ++ (" rune".data ++ s)) := rfl
    rw [e1, run_cat, run_str, run_cat]
    apply run_group_plus_greedy 1 _ _ _ r _ _ hne
      (fun x hx => by simpa [CharClass.test] using hr x hx)
    · intro y hy
      simp at hy; subst hy; decide
    rw [run_str, ← hK]
    have e2 : "found a".data ++ ((if an then ['n'] else []) ++ ' ' :: (r ++ (" rune".data ++ s)))
        = ("found a".data ++ ((if an then ['n'] else []) ++ ' ' :: (r ++ " rune".data))) ++ s := by
      simp
    simp only [e2, take_length_sub]
    simp [List.replicate]
  cases an with
  | true =>
    apply run_opt_of_some
    simp only [if_true, List.singleton_append, run_chr_cons, CharClass.test, beq_self_eq_true]
    exact main _
  | false =>
    rw [run_opt_of_none]
    · simpa using main _
    · simp [run_chr_cons, CharClass.test]

end Regex

/-! ## `NormalizeLog`: booleans and presence of `src` -/

theorem early_lookup_bool (env : Env) (log : Xlog) :
    Xlog.lookup "tiles" (normalizeCommon env (normalizeVersion env log)) =
      some (NormalizeBool (Xlog.get log "tiles")) ∧
    Xlog.lookup "wiz" (normalizeCommon env (normalizeVersion env log)) =
      some (NormalizeBool (Xlog.get log "wiz")) := by
  rw [normalizeCommon_eq, normalizeVersion_eq]
  constructor <;> simp [lookup_assign, lookup_assignWhen, get_assign, get_assignWhen]

theorem CanonicalizeFields_lookup_present (table : List (String × List (String × String)))
    (k : String) (log : Xlog) (h : Xlog.lookup k log ≠ none) :
    Xlog.lookup k (CanonicalizeFields table log) ≠ none := by
  induction table generalizing log with
  | nil => simpa [CanonicalizeFields] using h
  | cons ft r ih =>
    simp only [CanonicalizeFields, List.foldl_cons]
    apply ih
    cases hl : Xlog.lookup ft.1 log with
    | none => simpa using h
    | some v =>
      simp only [Xlog.lookup_set]
      split
      · simp
      · exact h

theorem NormalizeLog_src_present (env : Env) (log : Xlog) (hs : Xlog.lookup "src" log ≠ none) :
    Xlog.lookup "src" (NormalizeLog env log).1 ≠ none := by
  rw [NormalizeLog_of_src env log hs]
  rw [sanitizeGold_lookup _ _ _ (by decide)]
  apply CanonicalizeFields_lookup_present
  split <;>
    simp only [normalizeMilestone_lookup _ _ "src" (by decide),
      normalizeLogfile_lookup _ _ "src" (by decide),
      early_lookup_input env log "src" (Or.inr (Or.inl rfl))] <;> exact hs

/-! ## Substrings -/

theorem hasSubstring_iff (sub l : List Char) : hasSubstring sub l = true ↔ sub <:+: l := by
  induction l with
  | nil => simp [hasSubstring, List.infix_nil]
  | cons x xs ih =>
    simp only [hasSubstring, Bool.or_eq_true, ih, List.infix_cons_iff, List.isPrefixOf_iff_prefix]

theorem prefix_of_prefix_sep (P X B : List Char) (c : Char) (hc : c ∉ P)
    (h : P <+: X ++ c :: B) : P <+: X := by
  by_cases hl : P.length ≤ X.length
  · exact List.prefix_of_prefix_length_le h (List.prefix_append X (c :: B)) hl
  · have h2 : X ++ [c] <+: X ++ c :: B := ⟨B, by simp⟩
    have h3 : X ++ [c] <+: P :=
      List.prefix_of_prefix_length_le h2 h (by simp; omega)
    exact absurd (h3.subset (by simp)) hc

/-- A text without the character `c` occurs in `A c B` only inside `A` or
inside `B`. -/
theorem infix_sep_iff (P A B : List Char) (c : Char) (hc : c ∉ P) :
    P <:+: A ++ c :: B ↔ P <:+: A ∨ P <:+: B := by
  constructor
  · intro h
    induction A with
    | nil =>
      rcases List.infix_cons_iff.1 (by simpa using h) with h | h
      · have := prefix_of_prefix_sep P [] B c hc (by simpa using h)
        exact Or.inl this.isInfix
      · exact Or.inr h
    | cons a A ih =>
      rcases List.infix_cons_iff.1 (by simpa using h) with h | h
      · have := prefix_of_prefix_sep P (a :: A) B c hc (by simpa using h)
        exact Or.inl this.isInfix
      · rcases ih h with h | h
        · exact Or.inl (List.infix_cons h)
        · exact Or.inr h
  · rintro (h | h)
    · exact h.trans (List.infix_append' [] A (c :: B))
    · exact h.trans ((List.suffix_cons c B).isInfix.trans (List.suffix_append A (c :: B)).isInfix)

/-! ## The qualified-name pattern -/

namespace Regex

theorem run_bot_none (k : MState → Option (List (List Char))) (l : List Char)
    (caps : List (List Char)) : run bot k ⟨none, l, caps⟩ = k ⟨none, l, caps⟩ := rfl

/-- A greedy `c+` before `$` over a non-empty run of class characters that
reaches the end of the text. -/
theorem run_plus_greedy_eot (c : CharClass) (k : MState → Option (List (List Char)))
    (caps : List (List Char)) (w : List Char) (m : List (List Char)) (hne : w ≠ [])
    (hw : ∀ x ∈ w, c.test x = true) (p : Option Char)
    (hk : k ⟨prevAfter p w, [], caps⟩ = some m) :
    run (cat (plus true c) eot) k ⟨p, w, caps⟩ = some m := by
  obtain ⟨x, xs, rfl⟩ := List.exists_cons_of_ne_nil hne
  have hx : c.test x = true := hw x (by simp)
  rw [run_cat, plus, run_cat, run_chr_cons, if_pos hx]
  show starGreedy c (run eot k) caps (some x) xs = some m
  have := starGreedy_run c (run eot k) caps xs [] m (fun y hy => hw y (by simp [hy]))
    (by simp) (some x) (by simpa [run, prevAfter] using hk)
  rw [List.append_nil] at this
  exact this

/-- The pattern `^remote.(\w+)-[\w.-]+$` on `remote`, any character but a
newline, a non-empty word, a hyphen and a non-empty run of word characters,
dots and hyphens. -/
theorem rXlogQualifiedName_search (c0 : Char) (hc0 : c0 ≠ '\n') (server rest : List Char)
    (hs : server ≠ []) (hsw : ∀ c ∈ server, isWordChar c = true) (hr : rest ≠ [])
    (hrc : ∀ c ∈ rest, isWordChar c = true ∨ c = '.' ∨ c = '-') :
    search rXlogQualifiedName none ("remote".data ++ c0 :: (server ++ '-' :: rest)) =
      some ["remote".data ++ c0 :: (server ++ '-' :: rest), server] := by
  apply search_of_matchAt
  have hng : numGroups rXlogQualifiedName = 2 := by decide
  simp only [matchAt, hng]
  rw [rXlogQualifiedName, run, run_cat, run_bot_none, run_cat, run_str, run_cat, run_chr_cons]
  have h0 : CharClass.any.test c0 = true := by simpa [CharClass.test] using hc0
  rw [if_pos h0, run_cat]
  apply run_group_plus_greedy 1 _ _ _ server _ _ hs
    (fun x hx => by simpa [CharClass.test] using hsw x hx)
  · intro y hy
    simp at hy; subst hy; decide
  rw [run_cat, run_chr_cons]
  have h1 : (CharClass.lit '-').test '-' = true := by decide
  rw [if_pos h1]
  apply run_plus_greedy_eot _ _ _ rest _ hr
  · intro x hx
    rcases hrc x hx with h | h | h <;> simp [CharClass.test, h]
  · simp [List.replicate]

end Regex

/-! ## Encoded qualified names -/

/-- The text of a qualified name: `remote.`, the server, the kind label and
a tail made of the version, the game and the qualifier. -/
theorem XlogQualifiedName_data (server game version qualifier : String) (kind : XlogType) :
    ∃ tail : List Char,
      (XlogQualifiedName server game version qualifier kind).data =
        "remote".data ++ '.' :: (server.data ++ '-' :: (kind.String.data ++ '-' :: tail)) ∧
      (∀ c ∈ tail, c ∈ game.data ++ version.data ++ qualifier.data ∨ c = '-') ∧
      (∀ P : List Char, '-' ∉ P → ¬ P <:+: game.data → ¬ P <:+: version.data →
        ¬ P <:+: qualifier.data → ¬ P <:+: tail) := by
  by_cases hg : game = "" <;> by_cases hq : qualifier = ""
  · refine ⟨version.data, ?_, ?_, ?_⟩
    · simp [XlogQualifiedName, hg, hq, String.data_append]
    · intro c hc; simp [hc]
    · intro P _ _ hv _; exact hv
  · refine ⟨version.data ++ '-' :: qualifier.data, ?_, ?_, ?_⟩
    · simp [XlogQualifiedName, hg, hq, String.data_append]
    · intro c hc
      simp only [List.mem_append, List.mem_cons] at hc ⊢
      tauto
    · intro P hP _ hv hq'
      rw [infix_sep_iff _ _ _ _ hP]
      tauto
  · refine ⟨version.data ++ '-' :: game.data, ?_, ?_, ?_⟩
    · simp [XlogQualifiedName, hg, hq, String.data_append]
    · intro c hc
      simp only [List.mem_append, List.mem_cons] at hc ⊢
      tauto
    · intro P hP hg' hv _
      rw [infix_sep_iff _ _ _ _ hP]
      tauto
  · refine ⟨version.data ++ '-' :: (game.data ++ '-' :: qualifier.data), ?_, ?_, ?_⟩
    · simp [XlogQualifiedName, hg, hq, String.data_append]
    · intro c hc
      simp only [List.mem_append, List.mem_cons] at hc ⊢
      tauto
    · intro P hP hg' hv hq'
      rw [infix_sep_iff _ _ _ _ hP, infix_sep_iff _ _ _ _ hP]
      tauto

theorem kind_label_word (kind : XlogType) :
    kind.String.data ≠ [] ∧ ∀ c ∈ kind.String.data, isWordChar c = true := by
  cases kind <;> decide

/-! ## The leftmost match -/

namespace Regex

theorem prevAfter_append (p : Option Char) (a b : List Char) :
    prevAfter p (a ++ b) = prevAfter (prevAfter p a) b := by
  induction a generalizing p with
  | nil => rfl
  | cons x xs ih => simp [prevAfter, ih]

theorem search_eq_none_iff (re : Regex) (p : Option Char) (l : List Char) :
    search re p l = none ↔ ∀ a b, l = a ++ b → matchAt re (prevAfter p a) b = none := by
  induction l generalizing p with
  | nil =>
    constructor
    · intro h a b e
      have := List.append_eq_nil.1 e.symm
      rw [this.1, this.2]
      simpa [search, prevAfter] using h
    · intro h
      simpa [search, prevAfter] using h [] [] rfl
  | cons x xs ih =>
    constructor
    · intro h a b e
      cases hm : matchAt re p (x :: xs) with
      | some m => simp [search, hm] at h
      | none =>
        simp only [search, hm] at h
        cases a with
        | nil =>
          simp only [List.nil_append] at e
          rw [← e]
          simpa [prevAfter] using hm
        | cons y ys =>
          simp only [List.cons_append, List.cons.injEq] at e
          obtain ⟨rfl, e⟩ := e
          simpa [prevAfter] using (ih (some x)).1 h ys b e
    · intro h
      have hm : matchAt re p (x :: xs) = none := by simpa [prevAfter] using h [] (x :: xs) rfl
      simp only [search, hm]
      apply (ih (some x)).2
      intro a b e
      simpa [prevAfter] using h (x :: a) b (by simp [e])

theorem search_eq_some_of_leftmost (re : Regex) (p : Option Char) (a b : List Char)
    (m : List (List Char)) (hm : matchAt re (prevAfter p a) b = some m)
    (hfail : ∀ a' b', a ++ b = a' ++ b' → a'.length < a.length →
      matchAt re (prevAfter p a') b' = none) :
    search re p (a ++ b) = some m := by
  induction a generalizing p with
  | nil => exact search_of_matchAt re p b m (by simpa [prevAfter] using hm)
  | cons x xs ih =>
    have h0 : matchAt re p (x :: (xs ++ b)) = none := by
      simpa [prevAfter] using hfail [] (x :: (xs ++ b)) rfl (by simp)
    show search re p (x :: (xs ++ b)) = some m
    rw [search, h0]
    apply ih (some x) (by simpa [prevAfter] using hm)
    intro a' b' e hlt
    simpa [prevAfter] using hfail (x :: a') b' (by simp [e]) (by simpa using hlt)

end Regex

/-! ## The version patterns at one cursor -/

namespace Regex

theorem run_plus_greedy (c : CharClass) (k : MState → Option (List (List Char)))
    (caps : List (List Char)) (w t : List Char) (m : List (List Char)) (hne : w ≠ [])
    (hw : ∀ x ∈ w, c.test x = true) (ht : ∀ y ∈ t.head?, c.test y = false) (p : Option Char)
    (hk : k ⟨prevAfter p w, t, caps⟩ = some m) :
    run (plus true c) k ⟨p, w ++ t, caps⟩ = some m := by
  obtain ⟨x, xs, rfl⟩ := List.exists_cons_of_ne_nil hne
  have hx : c.test x = true := hw x (by simp)
  rw [plus, run_cat, List.cons_append, run_chr_cons, if_pos hx]
  exact starGreedy_run c k caps xs t m (fun y hy => hw y (by simp [hy])) ht (some x)
    (by simpa [prevAfter] using hk)

theorem starGreedy_inv (c : CharClass) (k : MState → Option (List (List Char)))
    (caps : List (List Char)) (p : Option Char) (l : List Char) (m : List (List Char))
    (h : starGreedy c k caps p l = some m) :
    ∃ w t, l = w ++ t ∧ (∀ x ∈ w, c.test x = true) ∧ k ⟨prevAfter p w, t, caps⟩ = some m := by
  induction l generalizing p with
  | nil => exact ⟨[], [], rfl, by simp, by simpa [starGreedy, prevAfter] using h⟩
  | cons x xs ih =>
    by_cases hx : c.test x = true
    · cases hr : starGreedy c k caps (some x) xs with
      | some m' =>
        have hm : m' = m := by simpa [starGreedy, hx, hr] using h
        subst hm
        obtain ⟨w, t, e, hw, hk⟩ := ih (some x) hr
        refine ⟨x :: w, t, by simp [e], ?_, by simpa [prevAfter] using hk⟩
        intro y hy
        rcases List.mem_cons.1 hy with rfl | hy
        · exact hx
        · exact hw y hy
      | none =>
        exact ⟨[], x :: xs, rfl, by simp, by simpa [starGreedy, hx, hr, prevAfter] using h⟩
    · exact ⟨[], x :: xs, rfl, by simp, by simpa [starGreedy, hx, prevAfter] using h⟩

theorem run_chr_inv (c : CharClass) (k : MState → Option (List (List Char)))
    (caps : List (List Char)) (p : Option Char) (l : List Char) (m : List (List Char))
    (h : run (chr c) k ⟨p, l, caps⟩ = some m) :
    ∃ x xs, l = x :: xs ∧ c.test x = true ∧ k ⟨some x, xs, caps⟩ = some m := by
  cases l with
  | nil => simp [run] at h
  | cons x xs =>
    rw [run_chr_cons] at h
    by_cases hx : c.test x = true
    · exact ⟨x, xs, rfl, hx, by simpa [hx] using h⟩
    · simp [hx] at h

theorem run_plus_greedy_inv (c : CharClass) (k : MState → Option (List (List Char)))
    (caps : List (List Char)) (p : Option Char) (l : List Char) (m : List (List Char))
    (h : run (plus true c) k ⟨p, l, caps⟩ = some m) :
    ∃ w t, l = w ++ t ∧ w ≠ [] ∧ (∀ x ∈ w, c.test x = true) ∧
      k ⟨prevAfter p w, t, caps⟩ = some m := by
  rw [plus, run_cat] at h
  obtain ⟨x, xs, rfl, hx, h⟩ := run_chr_inv _ _ _ _ _ _ h
  obtain ⟨w, t, e, hw, hk⟩ := starGreedy_inv c k caps (some x) xs m h
  refine ⟨x :: w, t, by simp [e], by simp, ?_, by simpa [prevAfter] using hk⟩
  intro y hy
  rcases List.mem_cons.1 hy with rfl | hy
  · exact hx
  · exact hw y hy

/-- The pattern `\d+[.]\d+` at a cursor before digits, a dot and a maximal
run of digits. -/
theorem rEmbeddedVersion_matchAt (p : Option Char) (d1 d2 b : List Char)
    (h1 : d1 ≠ []) (h2 : d2 ≠ []) (hd1 : ∀ c ∈ d1, c.isDigit = true)
    (hd2 : ∀ c ∈ d2, c.isDigit = true) (hb : ∀ y ∈ b.head?, y.isDigit = false) :
    matchAt rEmbeddedVersion p (d1 ++ '.' :: (d2 ++ b)) = some [d1 ++ '.' :: d2] := by
  have hng : numGroups rEmbeddedVersion = 0 := by decide
  simp only [matchAt, hng]
  rw [rEmbeddedVersion, run, run_cat]
  apply run_plus_greedy _ _ _ d1 _ _ h1 (fun x hx => by simpa [CharClass.test] using hd1 x hx)
  · intro y hy
    simp at hy; subst hy; decide
  rw [run_cat, run_chr_cons]
  have hdot : (CharClass.lit '.').test '.' = true := by decide
  rw [if_pos hdot]
  apply run_plus_greedy _ _ _ d2 _ _ h2 (fun x hx => by simpa [CharClass.test] using hd2 x hx)
    (fun y hy => by simpa [CharClass.test] using hb y hy)
  have e : d1 ++ '.' :: (d2 ++ b) = (d1 ++ '.' :: d2) ++ b := by simp
  simp only [e, take_length_sub]
  simp [List.replicate]

/-- If the pattern `\d+[.]\d+` matches at a cursor, the text after the cursor
starts with digits, a dot and digits. -/
theorem rEmbeddedVersion_matchAt_inv (p : Option Char) (l : List Char) (m : List (List Char))
    (h : matchAt rEmbeddedVersion p l = some m) :
    ∃ d1 d2 b, l = d1 ++ '.' :: (d2 ++ b) ∧ d1 ≠ [] ∧ d2 ≠ [] ∧
      (∀ c ∈ d1, c.isDigit = true) ∧ ∀ c ∈ d2, c.isDigit = true := by
  simp only [matchAt] at h
  rw [rEmbeddedVersion, run, run_cat] at h
  obtain ⟨d1, t, rfl, h1, hd1, h⟩ := run_plus_greedy_inv _ _ _ _ _ _ h
  rw [run_cat] at h
  obtain ⟨x, xs, rfl, hx, h⟩ := run_chr_inv _ _ _ _ _ _ h
  obtain ⟨d2, b, rfl, h2, hd2, _⟩ := run_plus_greedy_inv _ _ _ _ _ _ h
  have hx' : x = '.' := by simpa [CharClass.test] using hx
  subst hx'
  exact ⟨d1, d2, b, rfl, h1, h2, fun c hc => by simpa [CharClass.test] using hd1 c hc,
    fun c hc => by simpa [CharClass.test] using hd2 c hc⟩

end Regex

/-! ## Word boundaries and the words of the version-control rule -/

namespace Regex

theorem prevAfter_eq_getLast (p : Option Char) (a : List Char) :
    prevAfter p a = (match a.getLast? with | some c => some c | none => p) := by
  induction a generalizing p with
  | nil => rfl
  | cons x xs ih =>
    rw [prevAfter, ih]
    cases xs with
    | nil => rfl
    | cons y ys =>
      rw [List.getLast?_cons_cons]
      cases h : (y :: ys).getLast? with
      | none => simp at h
      | some c => rfl

theorem atWordBoundary_eq (a r : List Char) (caps : List (List Char)) :
    atWordBoundary ⟨prevAfter none a, r, caps⟩ = wordBoundaryBetween a r := by
  rw [prevAfter_eq_getLast]
  unfold atWordBoundary wordBoundaryBetween
  cases a.getLast? <;> cases r <;> rfl

theorem run_litFoldSeq_iff (w : List Char) (k : MState → Option (List (List Char)))
    (p : Option Char) (l : List Char) (caps : List (List Char)) (m : List (List Char)) :
    run (litFoldSeq w) k ⟨p, l, caps⟩ = some m ↔
      ∃ x b, l = x ++ b ∧ spellsIgnoringCase w x = true ∧
        k ⟨prevAfter p x, b, caps⟩ = some m := by
  induction w generalizing p l with
  | nil =>
    constructor
    · intro h
      exact ⟨[], l, rfl, rfl, by simpa [litFoldSeq, run, prevAfter] using h⟩
    · rintro ⟨x, b, rfl, hx, hk⟩
      cases x with
      | nil => simpa [litFoldSeq, run, prevAfter] using hk
      | cons y ys => simp [spellsIgnoringCase] at hx
  | cons c w ih =>
    rw [litFoldSeq, run_cat]
    constructor
    · intro h
      obtain ⟨y, t, rfl, hy, h⟩ := run_chr_inv _ _ _ _ _ _ h
      obtain ⟨x, b, rfl, hx, hk⟩ := (ih (some y) t).1 h
      refine ⟨y :: x, b, rfl, ?_, by simpa [prevAfter] using hk⟩
      simp only [CharClass.test] at hy
      simp [spellsIgnoringCase, hy, hx]
    · rintro ⟨x, b, rfl, hx, hk⟩
      cases x with
      | nil => simp [spellsIgnoringCase] at hx
      | cons y ys =>
        simp only [spellsIgnoringCase, Bool.and_eq_true] at hx
        have hy : (CharClass.litFold c).test y = true := by simpa [CharClass.test] using hx.1
        rw [List.cons_append, run_chr_cons, if_pos hy]
        exact (ih (some y) (ys ++ b)).2 ⟨ys, b, rfl, hx.2, by simpa [prevAfter] using hk⟩

theorem run_alt_ne_none (r t : Regex) (k : MState → Option (List (List Char))) (s : MState) :
    run (alt r t) k s ≠ none ↔ run r k s ≠ none ∨ run t k s ≠ none := by
  rw [run]
  cases h : run r k s <;> simp

/-- The pattern `(?i)\b(?:git|svn|master|trunk)\b` matches at a cursor exactly
when one of the four words, case ignored, starts there between two word
boundaries. -/
theorem rGitVersion_matchAt (p : Option Char) (r : List Char) :
    matchAt rGitVersion p r ≠ none ↔
      atWordBoundary ⟨p, r, []⟩ = true ∧
      ∃ w ∈ ["git", "svn", "master", "trunk"], ∃ x b, r = x ++ b ∧
        spellsIgnoringCase (String.data w) x = true ∧
        atWordBoundary ⟨prevAfter p x, b, []⟩ = true := by
  have key : ∀ (w : String) (k : MState → List (List Char)) (caps : List (List Char)),
      run (strFold w) (run wordBoundary (fun e => some (k e))) ⟨p, r, caps⟩ ≠ none ↔
        ∃ x b, r = x ++ b ∧ spellsIgnoringCase (String.data w) x = true ∧
          atWordBoundary ⟨prevAfter p x, b, []⟩ = true := by
    intro w k caps
    rw [Option.ne_none_iff_exists']
    constructor
    · rintro ⟨m, hm⟩
      obtain ⟨x, b, e, hx, hk⟩ := (run_litFoldSeq_iff _ _ _ _ _ _).1 hm
      refine ⟨x, b, e, hx, ?_⟩
      by_contra hb
      have hb' : atWordBoundary ⟨prevAfter p x, b, caps⟩ = false := by
        simpa [atWordBoundary] using hb
      simp [run, hb'] at hk
    · rintro ⟨x, b, e, hx, hb⟩
      have hb' : atWordBoundary ⟨prevAfter p x, b, caps⟩ = true := by
        simpa [atWordBoundary] using hb
      exact ⟨k ⟨prevAfter p x, b, caps⟩,
        (run_litFoldSeq_iff _ _ _ _ _ _).2 ⟨x, b, e, hx, by simp [run, hb']⟩⟩
  simp only [matchAt]
  rw [rGitVersion, run, run_cat]
  by_cases h0 : atWordBoundary ⟨p, r, []⟩ = true
  · have h0' : atWordBoundary ⟨p, r, List.replicate (max 1
        (numGroups (cat wordBoundary (cat (alt (strFold "git") (alt (strFold "svn")
          (alt (strFold "master") (strFold "trunk")))) wordBoundary)))) []⟩ = true := by
      simpa [atWordBoundary] using h0
    rw [run, if_pos h0', run_cat, run_alt_ne_none, run_alt_ne_none, run_alt_ne_none,
      key, key, key, key]
    simp only [h0, true_and, List.mem_cons, List.mem_singleton, List.not_mem_nil, or_false,
      exists_eq_or_imp, exists_eq_left]
  · have h0' : ¬ atWordBoundary ⟨p, r, List.replicate (max 1
        (numGroups (cat wordBoundary (cat (alt (strFold "git") (alt (strFold "svn")
          (alt (strFold "master") (strFold "trunk")))) wordBoundary)))) []⟩ = true := by
      simpa [atWordBoundary] using h0
    rw [run, if_neg h0']
    simp [h0]

/-- The pattern `\d{2}\b` matches at a cursor exactly when two digits stand
there and end at a word boundary; the match is the two digits. -/
theorem rEmbeddedVersionKey_matchAt (p : Option Char) (r : List Char) (m : List (List Char)) :
    matchAt rEmbeddedVersionKey p r = some m ↔
      ∃ c1 c2 b, r = c1 :: c2 :: b ∧ c1.isDigit = true ∧ c2.isDigit = true ∧
        atWordBoundary ⟨some c2, b, []⟩ = true ∧ m = [[c1, c2]] := by
  have hng : numGroups rEmbeddedVersionKey = 0 := by decide
  simp only [matchAt, hng]
  rw [rEmbeddedVersionKey, run, run_cat]
  constructor
  · intro h
    obtain ⟨c1, t, rfl, h1, h⟩ := run_chr_inv _ _ _ _ _ _ h
    rw [run_cat] at h
    obtain ⟨c2, b, rfl, h2, h⟩ := run_chr_inv _ _ _ _ _ _ h
    rw [run] at h
    by_cases hb : atWordBoundary ⟨some c2, b, List.replicate (max 1 0) []⟩ = true
    · rw [if_pos hb] at h
      refine ⟨c1, c2, b, rfl, by simpa [CharClass.test] using h1,
        by simpa [CharClass.test] using h2, hb, ?_⟩
      have : b.length + 1 + 1 - b.length = 2 := by omega
      simpa [List.replicate, this] using h.symm
    · rw [if_neg hb] at h
      exact absurd h (by simp)
  · rintro ⟨c1, c2, b, rfl, h1, h2, hb, rfl⟩
    have hb' : atWordBoundary ⟨some c2, b, List.replicate (max 1 0) []⟩ = true := hb
    have t1 : CharClass.digit.test c1 = true := by simpa [CharClass.test] using h1
    have t2 : CharClass.digit.test c2 = true := by simpa [CharClass.test] using h2
    rw [run_chr_cons, if_pos t1, run_cat, run_chr_cons, if_pos t2, run, if_pos hb']
    have : b.length + 1 + 1 - b.length = 2 := by omega
    simp [List.replicate, this]

end Regex

/-! ## The version patterns and the occurrences they find -/

theorem exists_leftmost (Occ : List Char → List Char → List Char → Prop) (l : List Char)
    (h : Contains Occ l) : ∃ m, Leftmost Occ l m := by
  classical
  have hS : ∃ n, ∃ a m b, l = a ++ m ++ b ∧ Occ a m b ∧ a.length = n := by
    obtain ⟨a, m, b, e, ho⟩ := h
    exact ⟨a.length, a, m, b, e, ho, rfl⟩
  have hn := Nat.find_spec hS
  obtain ⟨a0, m0, b0, e0, ho0, hl0⟩ := hn
  have hk0 : m0.length ≤ l.length := by rw [e0]; simp; omega
  have hT := Nat.findGreatest_spec
    (P := fun k => ∃ a m b, l = a ++ m ++ b ∧ Occ a m b ∧ a.length = Nat.find hS ∧ m.length = k)
    hk0 ⟨a0, m0, b0, e0, ho0, hl0, rfl⟩
  obtain ⟨a, m, b, e, ho, hl, hm⟩ := hT
  refine ⟨m, a, b, e, ho, ?_⟩
  intro a' m' b' e' ho'
  have h1 : Nat.find hS ≤ a'.length := Nat.find_min' hS ⟨a', m', b', e', ho', rfl⟩
  rcases Nat.lt_or_ge a.length a'.length with hlt | hge
  · exact Or.inl hlt
  · right
    have heq : a.length = a'.length := by omega
    refine ⟨heq, ?_⟩
    by_contra hgt
    have hk' : m'.length ≤ l.length := by rw [e']; simp; omega
    exact Nat.findGreatest_is_greatest
      (P := fun k => ∃ a m b, l = a ++ m ++ b ∧ Occ a m b ∧ a.length = Nat.find hS ∧ m.length = k)
      (by rw [← hm]; omega) hk' ⟨a', m', b', e', ho', by omega, rfl⟩

theorem MatchString_rGitVersion_iff (f : String) :
    rGitVersion.MatchString f = true ↔ Contains VcsWordAt f.data := by
  have h0 : rGitVersion.MatchString f = true ↔ Regex.search rGitVersion none f.data ≠ none := by
    simp only [Regex.MatchString, Regex.FindStringSubmatch]
    cases Regex.search rGitVersion none f.data <;> simp
  rw [h0, Ne, Regex.search_eq_none_iff]
  constructor
  · intro h
    by_contra hc
    apply h
    intro a r e
    by_contra hm
    obtain ⟨hb, w, hw, x, b, rfl, hx, hb2⟩ := (Regex.rGitVersion_matchAt _ _).1 hm
    apply hc
    refine ⟨a, x, b, by simp [e], ⟨w, hw, hx⟩, ?_, ?_⟩
    · rw [← Regex.atWordBoundary_eq a (x ++ b) []]; exact hb
    · rw [← Regex.atWordBoundary_eq (a ++ x) b [], Regex.prevAfter_append]; exact hb2
  · rintro ⟨a, x, b, e, ⟨w, hw, hx⟩, hb, hb2⟩ h
    have := h a (x ++ b) (by simp [e])
    refine (Regex.rGitVersion_matchAt _ _).2 ⟨?_, w, hw, x, b, rfl, hx, ?_⟩ this
    · rw [Regex.atWordBoundary_eq a (x ++ b) []]; exact hb
    · rw [← Regex.prevAfter_append, Regex.atWordBoundary_eq (a ++ x) b []]; exact hb2

theorem FindString_of_search (re : Regex) (f : String) (m : List Char)
    (h : Regex.search re none f.data = some [m]) : re.FindString f = String.mk m := by
  simp [Regex.FindString, Regex.FindStringSubmatch, h]

theorem FindString_of_search_none (re : Regex) (f : String)
    (h : Regex.search re none f.data = none) : re.FindString f = "" := by
  simp [Regex.FindString, Regex.FindStringSubmatch, h]

theorem search_rEmbeddedVersion_leftmost (l m : List Char) (h : Leftmost DottedAt l m) :
    Regex.search rEmbeddedVersion none l = some [m] := by
  obtain ⟨a, b, e, ⟨d1, d2, rfl, h1, h2, hd1, hd2⟩, hmin⟩ := h
  have hb : ∀ y ∈ b.head?, y.isDigit = false := by
    intro y hy
    cases b with
    | nil => simp at hy
    | cons z b' =>
      simp only [List.head?_cons, Option.mem_def, Option.some.injEq] at hy
      subst hy
      by_contra hz
      have hz' : z.isDigit = true := by simpa using hz
      have := hmin a (d1 ++ '.' :: (d2 ++ [z])) b' (by simp [e])
        ⟨d1, d2 ++ [z], rfl, h1, by simp, hd1, by
          intro c hc
          rcases List.mem_append.1 hc with hc | hc
          · exact hd2 c hc
          · simp at hc; subst hc; exact hz'⟩
      simp at this
  have e' : l = a ++ (d1 ++ '.' :: (d2 ++ b)) := by simp [e]
  rw [e']
  apply Regex.search_eq_some_of_leftmost
  · exact Regex.rEmbeddedVersion_matchAt _ d1 d2 b h1 h2 hd1 hd2 hb
  · intro a' r e2 hlt
    by_contra hm
    obtain ⟨m', hm'⟩ := Option.ne_none_iff_exists'.1 hm
    obtain ⟨x1, x2, b2, rfl, g1, g2, gd1, gd2⟩ := Regex.rEmbeddedVersion_matchAt_inv _ _ _ hm'
    have := hmin a' (x1 ++ '.' :: x2) b2 (by rw [e', e2]; simp) ⟨x1, x2, rfl, g1, g2, gd1, gd2⟩
    omega

theorem search_rEmbeddedVersion_none (l : List Char) (h : ¬ Contains DottedAt l) :
    Regex.search rEmbeddedVersion none l = none := by
  rw [Regex.search_eq_none_iff]
  intro a r e
  by_contra hm
  obtain ⟨m', hm'⟩ := Option.ne_none_iff_exists'.1 hm
  obtain ⟨x1, x2, b2, rfl, g1, g2, gd1, gd2⟩ := Regex.rEmbeddedVersion_matchAt_inv _ _ _ hm'
  exact h ⟨a, x1 ++ '.' :: x2, b2, by simp [e], x1, x2, rfl, g1, g2, gd1, gd2⟩

theorem prevAfter_two (p : Option Char) (a : List Char) (c1 c2 : Char) :
    prevAfter p (a ++ [c1, c2]) = some c2 := by
  rw [Regex.prevAfter_append]; rfl

theorem search_rEmbeddedVersionKey_leftmost (l m : List Char) (h : Leftmost VersionKeyAt l m) :
    Regex.search rEmbeddedVersionKey none l = some [m] := by
  obtain ⟨a, b, e, ⟨⟨c1, c2, rfl, h1, h2⟩, hb⟩, hmin⟩ := h
  have e' : l = a ++ (c1 :: c2 :: b) := by simp [e]
  rw [e']
  apply Regex.search_eq_some_of_leftmost
  · refine (Regex.rEmbeddedVersionKey_matchAt _ _ _).2 ⟨c1, c2, b, rfl, h1, h2, ?_, rfl⟩
    rw [← prevAfter_two none a c1 c2, Regex.atWordBoundary_eq]
    exact hb
  · intro a' r e2 hlt
    by_contra hm
    obtain ⟨m', hm'⟩ := Option.ne_none_iff_exists'.1 hm
    obtain ⟨x1, x2, b2, rfl, g1, g2, gb, _⟩ := (Regex.rEmbeddedVersionKey_matchAt _ _ _).1 hm'
    have := hmin a' [x1, x2] b2 (by rw [e', e2]; simp) ⟨⟨x1, x2, rfl, g1, g2⟩, by
      rw [← Regex.atWordBoundary_eq (a' ++ [x1, x2]) b2 [], prevAfter_two]; exact gb⟩
    omega

theorem search_rEmbeddedVersionKey_none (l : List Char) (h : ¬ Contains VersionKeyAt l) :
    Regex.search rEmbeddedVersionKey none l = none := by
  rw [Regex.search_eq_none_iff]
  intro a r e
  by_contra hm
  obtain ⟨m', hm'⟩ := Option.ne_none_iff_exists'.1 hm
  obtain ⟨x1, x2, b2, rfl, g1, g2, gb, _⟩ := (Regex.rEmbeddedVersionKey_matchAt _ _ _).1 hm'
  exact h ⟨a, [x1, x2], b2, by simp [e], ⟨x1, x2, rfl, g1, g2⟩, by
    rw [← Regex.atWordBoundary_eq (a ++ [x1, x2]) b2 [], prevAfter_two]; exact gb⟩

/-! ## Running `NormalizeLog` again -/

/-- A second run, in an environment with the same version helpers and any
remap table in any visiting order, leaves `v`, `cv`, `alpha`, `vnum`,
`cvnum`, `rstart` and `game_key` as the first run left them, when
`FullVersion` is idempotent and neither table lists one of these fields or
`name`, `src`, `start`. -/
theorem NormalizeLog_rerun_unlisted (env env2 : Env) (log : Xlog)
    (hF : env2.FullVersion = env.FullVersion) (hM : env2.MajorVersion = env.MajorVersion)
    (hA : env2.IsAlpha = env.IsAlpha) (hN : env2.VersionNumericId = env.VersionNumericId)
    (hs : Xlog.lookup "src" log ≠ none)
    (hfv : ∀ v, env.FullVersion (env.FullVersion v) = env.FullVersion v)
    (ht : ∀ e ∈ env.fieldInputTransforms, e.1 ∉
      ["v", "cv", "alpha", "vnum", "cvnum", "rstart", "game_key", "name", "src", "start"])
    (ht2 : ∀ e ∈ env2.fieldInputTransforms, e.1 ∉
      ["v", "cv", "alpha", "vnum", "cvnum", "rstart", "game_key", "name", "src", "start"]) :
    ∀ k ∈ ["v", "cv", "alpha", "vnum", "cvnum", "rstart", "game_key"],
      Xlog.lookup k (NormalizeLog env2 (NormalizeLog env log).1).1 =
        Xlog.lookup k (NormalizeLog env log).1 := by
  have u1 : ∀ k ∈ ["v", "cv", "alpha", "vnum", "cvnum", "rstart", "game_key", "name", "src",
      "start"], ∀ e ∈ env.fieldInputTransforms, e.1 ≠ k :=
    fun k hk e he h => ht e he (h ▸ hk)
  have u2 : ∀ k ∈ ["v", "cv", "alpha", "vnum", "cvnum", "rstart", "game_key", "name", "src",
      "start"], ∀ e ∈ env2.fieldInputTransforms, e.1 ≠ k :=
    fun k hk e he h => ht2 e he (h ▸ hk)
  have hv := NormalizeLog_lookup_early env log "v" hs (by decide) (u1 "v" (by decide))
  have hal := NormalizeLog_lookup_early env log "alpha" hs (by decide) (u1 "alpha" (by decide))
  have hn := NormalizeLog_lookup_early env log "name" hs (by decide) (u1 "name" (by decide))
  have hc := NormalizeLog_lookup_early env log "src" hs (by decide) (u1 "src" (by decide))
  have hb := NormalizeLog_lookup_early env log "start" hs (by decide) (u1 "start" (by decide))
  rw [early_lookup_input env log "name" (Or.inl rfl)] at hn
  rw [early_lookup_input env log "src" (Or.inr (Or.inl rfl))] at hc
  rw [early_lookup_input env log "start" (Or.inr (Or.inr rfl))] at hb
  rw [(early_lookup_version env log).1] at hv
  rw [(early_lookup_version env log).2.1] at hal
  have hs1 : Xlog.lookup "src" (NormalizeLog env log).1 ≠ none := by rw [hc]; exact hs
  have gv : Xlog.get (NormalizeLog env log).1 "v" = env.FullVersion (Xlog.get log "v") := by
    simp [Xlog.get, hv]
  have gn : Xlog.get (NormalizeLog env log).1 "name" = Xlog.get log "name" := by
    simp [Xlog.get, hn]
  have gc : Xlog.get (NormalizeLog env log).1 "src" = Xlog.get log "src" := by
    simp [Xlog.get, hc]
  have gb : Xlog.get (NormalizeLog env log).1 "start" = Xlog.get log "start" := by
    simp [Xlog.get, hb]
  have ga : (if env.IsAlpha (env.FullVersion (Xlog.get log "v")) then "t"
        else Xlog.get (NormalizeLog env log).1 "alpha") =
      (if env.IsAlpha (env.FullVersion (Xlog.get log "v")) then "t"
        else Xlog.get log "alpha") := by
    split
    · rfl
    · rename_i h
      show (Xlog.lookup "alpha" (NormalizeLog env log).1).getD "" =
        (Xlog.lookup "alpha" log).getD ""
      rw [hal, if_neg h]
  have la : (if env.IsAlpha (env.FullVersion (Xlog.get log "v")) then some "t"
        else Xlog.lookup "alpha" (NormalizeLog env log).1) =
      (if env.IsAlpha (env.FullVersion (Xlog.get log "v")) then some "t"
        else Xlog.lookup "alpha" log) := by
    split
    · rfl
    · rename_i h; simp [hal, h]
  have e1 := early_lookup_version env2 (NormalizeLog env log).1
  have e2 := early_lookup_derived env2 (NormalizeLog env log).1
  rw [hF, hM, hA, hN, gv, hfv, ga, la] at e1
  rw [gn, gc, gb] at e2
  have f1 := early_lookup_version env log
  have f2 := early_lookup_derived env log
  have step : ∀ k, k ∈ ["v", "cv", "alpha", "vnum", "cvnum", "rstart", "game_key", "name",
      "src", "start"] → k ∉ lateKeys →
      Xlog.lookup k (normalizeCommon env2 (normalizeVersion env2 (NormalizeLog env log).1)) =
        Xlog.lookup k (normalizeCommon env (normalizeVersion env log)) →
      Xlog.lookup k (NormalizeLog env2 (NormalizeLog env log).1).1 =
        Xlog.lookup k (NormalizeLog env log).1 := by
    intro k hk10 hlate h
    rw [NormalizeLog_lookup_early env2 _ k hs1 hlate (u2 k hk10),
      NormalizeLog_lookup_early env log k hs hlate (u1 k hk10), h]
  intro k hk
  simp only [List.mem_cons, List.mem_singleton, List.not_mem_nil, or_false] at hk
  rcases hk with rfl | rfl | rfl | rfl | rfl | rfl | rfl
  · exact step _ (by decide) (by decide) (by rw [e1.1, f1.1])
  · exact step _ (by decide) (by decide) (by rw [e1.2.2.1, f1.2.2.1])
  · exact step _ (by decide) (by decide) (by rw [e1.2.1, f1.2.1])
  · exact step _ (by decide) (by decide) (by rw [e1.2.2.2.1, f1.2.2.2.1])
  · exact step _ (by decide) (by decide) (by rw [e1.2.2.2.2, f1.2.2.2.2])
  · exact step _ (by decide) (by decide) (by rw [e2.1, f2.1])
  · exact step _ (by decide) (by decide) (by rw [e2.2, f2.2])

/-! ## Claims -/

/-- C1: for every record without the `src` key, `NormalizeLog` returns the
error `ErrNoSrc` together with the record exactly as it was given. -/
theorem NormalizeLog_missing_src (env : Env) (log : Xlog)
    (h : Xlog.lookup "src" log = none) :
    NormalizeLog env log = (log, some XlogError.ErrNoSrc) := by
  simp [NormalizeLog, h]

theorem NormalizeLog_missing_src_witness :
    Xlog.lookup "src" [("name", "bob"), ("start", "20140101")] = none ∧
    NormalizeLog Env.identity [("name", "bob"), ("start", "20140101")] =
      ([("name", "bob"), ("start", "20140101")], some XlogError.ErrNoSrc) :=
  ⟨by decide, NormalizeLog_missing_src _ _ (by decide)⟩

/-- C2 fails as stated: with the remap table `name: bob -> alice`, the
record `src = cao, name = bob, start = 20140101` is normalised without error
to one with `game_key = bob:cao:20140101` and `name = alice`. -/
theorem NormalizeLog_game_key_remapped :
    Xlog.lookup "src" [("src", "cao"), ("name", "bob"), ("start", "20140101")] ≠ none ∧
    (NormalizeLog (Env.remapping [("name", [("bob", "alice")])])
      [("src", "cao"), ("name", "bob"), ("start", "20140101")]).2 = none ∧
    Xlog.get (NormalizeLog (Env.remapping [("name", [("bob", "alice")])])
      [("src", "cao"), ("name", "bob"), ("start", "20140101")]).1 "game_key" =
        "bob:cao:20140101" ∧
    Xlog.get (NormalizeLog (Env.remapping [("name", [("bob", "alice")])])
      [("src", "cao"), ("name", "bob"), ("start", "20140101")]).1 "name" = "alice" ∧
    ¬ (∀ (env : Env) (log : Xlog), Xlog.lookup "src" log ≠ none →
      (NormalizeLog env log).2 = none ∧
      Xlog.get (NormalizeLog env log).1 "game_key" =
        Xlog.get (NormalizeLog env log).1 "name" ++ ":" ++
          Xlog.get (NormalizeLog env log).1 "src" ++ ":" ++
          Xlog.get (NormalizeLog env log).1 "start") := by
  refine ⟨by decide, by decide, by decide, by decide, ?_⟩
  intro h
  have := (h (Env.remapping [("name", [("bob", "alice")])])
    [("src", "cao"), ("name", "bob"), ("start", "20140101")] (by decide)).2
  revert this
  decide

/-- C2 as amended: for every record with `src` and every environment whose
field remap table lists none of `game_key`, `name`, `src`, `start`,
`NormalizeLog` returns no error and in the returned record `game_key` equals
`name`, `":"`, `src`, `":"`, `start` of that record. -/
theorem NormalizeLog_game_key (env : Env) (log : Xlog)
    (hs : Xlog.lookup "src" log ≠ none)
    (ht : ∀ e ∈ env.fieldInputTransforms,
      e.1 ≠ "game_key" ∧ e.1 ≠ "name" ∧ e.1 ≠ "src" ∧ e.1 ≠ "start") :
    (NormalizeLog env log).2 = none ∧
    Xlog.get (NormalizeLog env log).1 "game_key" =
      Xlog.get (NormalizeLog env log).1 "name" ++ ":" ++
        Xlog.get (NormalizeLog env log).1 "src" ++ ":" ++
        Xlog.get (NormalizeLog env log).1 "start" := by
  refine ⟨by rw [NormalizeLog_of_src env log hs], ?_⟩
  have hg := NormalizeLog_lookup_early env log "game_key" hs (by decide)
    (fun e he => (ht e he).1)
  have hn := NormalizeLog_lookup_early env log "name" hs (by decide)
    (fun e he => (ht e he).2.1)
  have hc := NormalizeLog_lookup_early env log "src" hs (by decide)
    (fun e he => (ht e he).2.2.1)
  have hb := NormalizeLog_lookup_early env log "start" hs (by decide)
    (fun e he => (ht e he).2.2.2)
  rw [early_lookup_input env log "name" (Or.inl rfl)] at hn
  rw [early_lookup_input env log "src" (Or.inr (Or.inl rfl))] at hc
  rw [early_lookup_input env log "start" (Or.inr (Or.inr rfl))] at hb
  rw [(early_lookup_derived env log).2] at hg
  simp only [Xlog.get, hg, hn, hc, hb, Option.getD_some]

theorem NormalizeLog_game_key_witness :
    Xlog.lookup "src" [("src", "cao"), ("name", "bob"), ("start", "20140101")] ≠ none ∧
    (∀ e ∈ (Env.remapping [("race", [("Kenku", "Tengu")])]).fieldInputTransforms,
      e.1 ≠ "game_key" ∧ e.1 ≠ "name" ∧ e.1 ≠ "src" ∧ e.1 ≠ "start") ∧
    (NormalizeLog (Env.remapping [("race", [("Kenku", "Tengu")])])
      [("src", "cao"), ("name", "bob"), ("start", "20140101")]).2 = none ∧
    Xlog.get (NormalizeLog (Env.remapping [("race", [("Kenku", "Tengu")])])
      [("src", "cao"), ("name", "bob"), ("start", "20140101")]).1 "game_key" =
      Xlog.get (NormalizeLog (Env.remapping [("race", [("Kenku", "Tengu")])])
        [("src", "cao"), ("name", "bob"), ("start", "20140101")]).1 "name" ++ ":" ++
      Xlog.get (NormalizeLog (Env.remapping [("race", [("Kenku", "Tengu")])])
        [("src", "cao"), ("name", "bob"), ("start", "20140101")]).1 "src" ++ ":" ++
      Xlog.get (NormalizeLog (Env.remapping [("race", [("Kenku", "Tengu")])])
        [("src", "cao"), ("name", "bob"), ("start", "20140101")]).1 "start" :=
  ⟨by decide, by decide,
    NormalizeLog_game_key (Env.remapping [("race", [("Kenku", "Tengu")])])
      [("src", "cao"), ("name", "bob"), ("start", "20140101")] (by decide) (by decide)⟩

/-- C3: when the remapped verb is `uniq` and the noun is a non-empty word of
word characters, a space, a non-empty text without newline and a final dot,
`NormalizeMilestoneFields` stores that text as `noun` and stores the verb
`uniq.ban`, `uniq.pac` or `uniq.ens` for the words `banished`, `pacified`,
`enslaved`, and `uniq` for every other word. -/
theorem NormalizeMilestoneFields_uniq (env : Env) (log : Xlog) (w rest : String)
    (hverb : mappedVerb env log = "uniq")
    (hnoun : Xlog.get log "noun" = w ++ " " ++ rest ++ ".")
    (hw : w ≠ "" ∧ ∀ c ∈ w.data, isWordChar c = true)
    (hrest : rest ≠ "" ∧ ∀ c ∈ rest.data, c ≠ '\n') :
    Xlog.lookup "noun" (NormalizeMilestoneFields env log) = some rest ∧
    Xlog.lookup "verb" (NormalizeMilestoneFields env log) =
      some (if w = "banished" then "uniq.ban" else if w = "pacified" then "uniq.pac"
        else if w = "enslaved" then "uniq.ens" else "uniq") := by
  have hwd : w.data ≠ [] := fun h => hw.1 (by cases w; simp_all)
  have hm : rActionWord.FindStringSubmatch (w ++ " " ++ rest ++ ".") =
      some [w ++ " " ++ rest ++ ".", w, rest] := by
    have e : (w ++ " " ++ rest ++ ".").data = w.data ++ ' ' :: (rest.data ++ ['.']) := by
      simp [String.data_append]
    have hs := Regex.rActionWord_search w.data rest.data hwd hw.2 hrest.2
    rw [← e] at hs
    rw [Regex.FindStringSubmatch, hs]
    rfl
  have key : milestoneSwitch env log (mappedVerb env log) (Xlog.get log "noun") =
      (qualifyVerbAction "uniq" w, rest) := by
    simp [milestoneSwitch, hverb, hnoun, hm]
  rw [NormalizeMilestoneFields_lookup, NormalizeMilestoneFields_lookup, key]
  refine ⟨by simp [hrest.1], ?_⟩
  simp only [qualifyVerbAction]
  split_ifs <;> simp_all

theorem NormalizeMilestoneFields_uniq_witness :
    Xlog.lookup "noun" (NormalizeMilestoneFields Env.identity
      [("verb", "uniq"), ("noun", "banished the Lernaean hydra.")]) =
        some "the Lernaean hydra" ∧
    Xlog.lookup "verb" (NormalizeMilestoneFields Env.identity
      [("verb", "uniq"), ("noun", "banished the Lernaean hydra.")]) = some "uniq.ban" :=
  NormalizeMilestoneFields_uniq Env.identity
    [("verb", "uniq"), ("noun", "banished the Lernaean hydra.")] "banished" "the Lernaean hydra"
    (by decide) (by decide) (by decide) (by decide)

/-- C4: for a non-empty rune name `r` without white space and any suffix
`s`, `FoundRuneName` returns `r` on `found a r rune s` and on `found an r
rune s`; and when the remapped verb is `rune` and the noun has one of these
forms, `NormalizeMilestoneFields` stores `r` as `noun`. -/
theorem FoundRuneName_spec (r s : String)
    (hr : r ≠ "" ∧ ∀ c ∈ r.data, isPerlSpace c = false) :
    FoundRuneName ("found a " ++ r ++ " rune" ++ s) = r ∧
    FoundRuneName ("found an " ++ r ++ " rune" ++ s) = r ∧
    ∀ (env : Env) (log : Xlog), mappedVerb env log = "rune" →
      (Xlog.get log "noun" = "found a " ++ r ++ " rune" ++ s ∨
        Xlog.get log "noun" = "found an " ++ r ++ " rune" ++ s) →
      Xlog.lookup "noun" (NormalizeMilestoneFields env log) = some r := by
  have hrd : r.data ≠ [] := fun h => hr.1 (by cases r; simp_all)
  have h1 : FoundRuneName ("found a " ++ r ++ " rune" ++ s) = r := by
    have e : ("found a " ++ r ++ " rune" ++ s).data = "found a".data ++
        ((if false = true then ['n'] else []) ++ ' ' :: (r.data ++ (" rune".data ++ s.data))) := by
      simp [String.data_append]
    have hs := Regex.rFoundRune_search false r.data s.data hrd hr.2
    rw [← e] at hs
    rw [FoundRuneName, textReSubmatch, Regex.FindStringSubmatch, hs]
    rfl
  have h2 : FoundRuneName ("found an " ++ r ++ " rune" ++ s) = r := by
    have e : ("found an " ++ r ++ " rune" ++ s).data = "found a".data ++
        ((if true = true then ['n'] else []) ++ ' ' :: (r.data ++ (" rune".data ++ s.data))) := by
      simp [String.data_append]
    have hs := Regex.rFoundRune_search true r.data s.data hrd hr.2
    rw [← e] at hs
    rw [FoundRuneName, textReSubmatch, Regex.FindStringSubmatch, hs]
    rfl
  refine ⟨h1, h2, ?_⟩
  intro env log hverb hnoun
  have key : milestoneSwitch env log (mappedVerb env log) (Xlog.get log "noun") = ("rune", r) := by
    rcases hnoun with hn | hn <;> simp [milestoneSwitch, hverb, hn, h1, h2]
  rw [NormalizeMilestoneFields_lookup, key]
  simp [hr.1]

theorem FoundRuneName_spec_witness :
    FoundRuneName ("found a " ++ "abyssal" ++ " rune" ++ " of Zot.") = "abyssal" ∧
    FoundRuneName ("found an " ++ "abyssal" ++ " rune" ++ " of Zot.") = "abyssal" ∧
    ∀ (env : Env) (log : Xlog), mappedVerb env log = "rune" →
      (Xlog.get log "noun" = "found a " ++ "abyssal" ++ " rune" ++ " of Zot." ∨
        Xlog.get log "noun" = "found an " ++ "abyssal" ++ " rune" ++ " of Zot.") →
      Xlog.lookup "noun" (NormalizeMilestoneFields env log) = some "abyssal" :=
  FoundRuneName_spec "abyssal" " of Zot." (by decide)

/-- C5: `NormalizeMilestoneFields` always writes the `verb` key, with the
verb computed by the switch; it writes `noun` exactly when the computed noun
is non-empty, and otherwise keeps the prior `noun` entry; so a noun that is
non-empty before the call is non-empty after it. -/
theorem NormalizeMilestoneFields_writes (env : Env) (log : Xlog) :
    Xlog.lookup "verb" (NormalizeMilestoneFields env log) =
      some (milestoneSwitch env log (mappedVerb env log) (Xlog.get log "noun")).1 ∧
    ((milestoneSwitch env log (mappedVerb env log) (Xlog.get log "noun")).2 ≠ "" →
      Xlog.lookup "noun" (NormalizeMilestoneFields env log) =
        some (milestoneSwitch env log (mappedVerb env log) (Xlog.get log "noun")).2) ∧
    ((milestoneSwitch env log (mappedVerb env log) (Xlog.get log "noun")).2 = "" →
      Xlog.lookup "noun" (NormalizeMilestoneFields env log) = Xlog.lookup "noun" log) ∧
    (Xlog.get log "noun" ≠ "" → Xlog.get (NormalizeMilestoneFields env log) "noun" ≠ "") := by
  refine ⟨?_, ?_, ?_, ?_⟩
  · rw [NormalizeMilestoneFields_lookup]; simp
  · intro h; rw [NormalizeMilestoneFields_lookup]; simp [h]
  · intro h; rw [NormalizeMilestoneFields_lookup]; simp [h]
  · intro h
    unfold Xlog.get at h ⊢
    rw [NormalizeMilestoneFields_lookup]
    by_cases h1 : (milestoneSwitch env log (mappedVerb env log) (Xlog.get log "noun")).2 = ""
    · simpa [h1] using h
    · simp [h1]

theorem NormalizeMilestoneFields_writes_witness :
    Xlog.get [("verb", "orb"), ("noun", "found the Orb of Zot!")] "noun" ≠ "" ∧
    Xlog.get (NormalizeMilestoneFields Env.identity
      [("verb", "orb"), ("noun", "found the Orb of Zot!")]) "noun" ≠ "" :=
  ⟨by decide, (NormalizeMilestoneFields_writes _ _).2.2.2 (by decide)⟩

/-- C6: each extraction helper returns its input when its pattern finds no
match; and when the remapped verb is one of the pattern-driven verbs and the
noun does not match that verb's pattern, `NormalizeMilestoneFields` leaves
the `noun` entry as it was and stores the remapped verb unchanged. -/
theorem identity_fallback :
    (∀ t, rFoundRune.FindStringSubmatch t = none → FoundRuneName t = t) ∧
    (∀ t, rMollifiedGod.FindStringSubmatch t = none → MollifiedGodName t = t) ∧
    (∀ t, rRenouncedGod.FindStringSubmatch t = none → RenouncedGodName t = t) ∧
    (∀ t, rWorshippedGod.FindStringSubmatch t = none → WorshippedGodName t = t) ∧
    (∀ t, rMaxedPietyGod.FindStringSubmatch t = none → MaxedPietyGodName t = t) ∧
    (∀ t, rShaftedPlace.FindStringSubmatch t = none → ShaftedPlace t = t) ∧
    (∀ (env : Env) (log : Xlog),
      (mappedVerb env log = "uniq" ∧
          rActionWord.FindStringSubmatch (Xlog.get log "noun") = none) ∨
        (mappedVerb env log = "ghost" ∧
          rGhostWord.FindStringSubmatch (Xlog.get log "noun") = none) ∨
        (mappedVerb env log = "abyss.enter" ∧
          rAbyssCause.FindStringSubmatch (Xlog.get log "noun") = none) ∨
        (mappedVerb env log = "rune" ∧
          rFoundRune.FindStringSubmatch (Xlog.get log "noun") = none) ∨
        (mappedVerb env log = "god.mollify" ∧
          rMollifiedGod.FindStringSubmatch (Xlog.get log "noun") = none) ∨
        (mappedVerb env log = "god.renounce" ∧
          rRenouncedGod.FindStringSubmatch (Xlog.get log "noun") = none) ∨
        (mappedVerb env log = "god.worship" ∧
          rWorshippedGod.FindStringSubmatch (Xlog.get log "noun") = none) ∨
        (mappedVerb env log = "god.maxpiety" ∧
          rMaxedPietyGod.FindStringSubmatch (Xlog.get log "noun") = none) ∨
        (mappedVerb env log = "shaft" ∧
          rShaftedPlace.FindStringSubmatch (Xlog.get log "noun") = none) →
      Xlog.lookup "noun" (NormalizeMilestoneFields env log) = Xlog.lookup "noun" log ∧
      Xlog.lookup "verb" (NormalizeMilestoneFields env log) = some (mappedVerb env log)) := by
  refine ⟨?_, ?_, ?_, ?_, ?_, ?_, ?_⟩
  · intro t h; simp [FoundRuneName, textReSubmatch, h]
  · intro t h; simp [MollifiedGodName, textReSubmatch, h]
  · intro t h; simp [RenouncedGodName, textReSubmatch, h]
  · intro t h; simp [WorshippedGodName, textReSubmatch, h]
  · intro t h; simp [MaxedPietyGodName, textReSubmatch, h]
  · intro t h; simp [ShaftedPlace, textReSubmatch, h]
  · intro env log h
    have key : milestoneSwitch env log (mappedVerb env log) (Xlog.get log "noun") =
        (mappedVerb env log, Xlog.get log "noun") := by
      rcases h with h | h | h | h | h | h | h | h | h <;> obtain ⟨hv, hm⟩ := h <;>
        simp [milestoneSwitch, hv, hm, FoundRuneName, MollifiedGodName, RenouncedGodName,
          WorshippedGodName, MaxedPietyGodName, ShaftedPlace, textReSubmatch]
    constructor
    · rw [NormalizeMilestoneFields_lookup, key]
      by_cases hn : Xlog.get log "noun" = ""
      · simp [hn]
      · simp only [hn, ne_eq, not_false_eq_true, and_self, if_true]
        unfold Xlog.get at hn ⊢
        cases hl : Xlog.lookup "noun" log with
        | none => simp [hl] at hn
        | some v => simp
    · rw [NormalizeMilestoneFields_lookup, key]; simp

theorem identity_fallback_witness :
    FoundRuneName "killed a rat" = "killed a rat" ∧
    Xlog.lookup "noun" (NormalizeMilestoneFields Env.identity
      [("verb", "god.renounce"), ("noun", "abandoned Xom")]) = some "abandoned Xom" :=
  ⟨identity_fallback.1 _ (by decide),
    (identity_fallback.2.2.2.2.2.2 Env.identity
      [("verb", "god.renounce"), ("noun", "abandoned Xom")]
      (Or.inr (Or.inr (Or.inr (Or.inr (Or.inr (Or.inl ⟨by decide, by decide⟩))))))).1⟩

/-- C7: if one of `gold`, `goldfound`, `goldspent` parses (default 0) to a
negative integer, `sanitizeGold` leaves all three equal to `"0"`; if none
does, the record is returned as it was. -/
theorem sanitizeGold_spec (env : Env) (log : Xlog) :
    ((env.ParseInt (Xlog.get log "gold") 0 < 0 ∨
        env.ParseInt (Xlog.get log "goldfound") 0 < 0 ∨
        env.ParseInt (Xlog.get log "goldspent") 0 < 0) →
      Xlog.lookup "gold" (sanitizeGold env log) = some "0" ∧
      Xlog.lookup "goldfound" (sanitizeGold env log) = some "0" ∧
      Xlog.lookup "goldspent" (sanitizeGold env log) = some "0") ∧
    (¬ (env.ParseInt (Xlog.get log "gold") 0 < 0 ∨
        env.ParseInt (Xlog.get log "goldfound") 0 < 0 ∨
        env.ParseInt (Xlog.get log "goldspent") 0 < 0) →
      sanitizeGold env log = log) := by
  constructor
  · intro h
    simp only [sanitizeGold, if_pos h]
    simp [Xlog.lookup_set]
  · intro h
    simp only [sanitizeGold, if_neg h]

theorem sanitizeGold_spec_witness :
    Xlog.lookup "gold" (sanitizeGold Env.identity [("goldfound", "-5")]) = some "0" ∧
    Xlog.lookup "goldfound" (sanitizeGold Env.identity [("goldfound", "-5")]) = some "0" ∧
    Xlog.lookup "goldspent" (sanitizeGold Env.identity [("goldfound", "-5")]) = some "0" :=
  (sanitizeGold_spec Env.identity [("goldfound", "-5")]).1 (Or.inr (Or.inl (by decide)))

/-- C8: on the table `race: Grey Elf -> High Elf, High Elf -> Elf` and the
record `race = Grey Elf`, `CanonicalizeFields` leaves `race = Elf` when the
loop visits the entries in that order, not the table's replacement
`High Elf` for the record's value; visiting them in the other order gives
`High Elf`. -/
theorem CanonicalizeFields_chained :
    CanonicalizeFields [("race", [("Grey Elf", "High Elf"), ("High Elf", "Elf")])]
      [("race", "Grey Elf")] = [("race", "Elf")] ∧
    CanonicalizeFields [("race", [("High Elf", "Elf"), ("Grey Elf", "High Elf")])]
      [("race", "Grey Elf")] = [("race", "High Elf")] := by
  decide

/-- C9: a second `NormalizeLog` is not safe for `vnum` and `game_key` on
the table `vnum: 0 -> 1, 1 -> 0; game_key: bob:cao:1 -> x, x -> bob:cao:1`,
which lists none of `v`, `cv`, `alpha`, `name`, `src`, `start`. On the record
`src = cao, name = bob, start = 1` the first run, visiting the entries of each
field in the order written, leaves `vnum = 0` and `game_key = bob:cao:1`; a
second run that visits the same entries in the other order leaves `vnum = 1`
and `game_key = x`. -/
theorem NormalizeLog_rerun_order :
    (∀ v, Env.identity.FullVersion (Env.identity.FullVersion v) = Env.identity.FullVersion v) ∧
    (∀ e ∈ [("vnum", [("0", "1"), ("1", "0")]),
        ("game_key", [("bob:cao:1", "x"), ("x", "bob:cao:1")])],
      e.1 ≠ "v" ∧ e.1 ≠ "cv" ∧ e.1 ≠ "alpha" ∧ e.1 ≠ "name" ∧ e.1 ≠ "src" ∧ e.1 ≠ "start") ∧
    List.Perm [("0", "1"), ("1", "0")] [("1", "0"), ("0", "1")] ∧
    List.Perm [("bob:cao:1", "x"), ("x", "bob:cao:1")] [("x", "bob:cao:1"), ("bob:cao:1", "x")] ∧
    Xlog.lookup "vnum" (NormalizeLog
      (Env.remapping [("vnum", [("0", "1"), ("1", "0")]),
        ("game_key", [("bob:cao:1", "x"), ("x", "bob:cao:1")])])
      [("src", "cao"), ("name", "bob"), ("start", "1")]).1 = some "0" ∧
    Xlog.lookup "game_key" (NormalizeLog
      (Env.remapping [("vnum", [("0", "1"), ("1", "0")]),
        ("game_key", [("bob:cao:1", "x"), ("x", "bob:cao:1")])])
      [("src", "cao"), ("name", "bob"), ("start", "1")]).1 = some "bob:cao:1" ∧
    Xlog.lookup "vnum" (NormalizeLog
      (Env.remapping [("vnum", [("1", "0"), ("0", "1")]),
        ("game_key", [("x", "bob:cao:1"), ("bob:cao:1", "x")])])
      (NormalizeLog
        (Env.remapping [("vnum", [("0", "1"), ("1", "0")]),
          ("game_key", [("bob:cao:1", "x"), ("x", "bob:cao:1")])])
        [("src", "cao"), ("name", "bob"), ("start", "1")]).1).1 = some "1" ∧
    Xlog.lookup "game_key" (NormalizeLog
      (Env.remapping [("vnum", [("1", "0"), ("0", "1")]),
        ("game_key", [("x", "bob:cao:1"), ("bob:cao:1", "x")])])
      (NormalizeLog
        (Env.remapping [("vnum", [("0", "1"), ("1", "0")]),
          ("game_key", [("bob:cao:1", "x"), ("x", "bob:cao:1")])])
        [("src", "cao"), ("name", "bob"), ("start", "1")]).1).1 = some "x" :=
  ⟨fun _ => rfl, by decide, List.Perm.swap _ _ [], List.Perm.swap _ _ [],
    by decide, by decide, by decide, by decide⟩

/-- C10: with the empty verb-remap table, decoding the milestone `verb =
uniq`, `noun = "killed the big hydra."` once gives the noun `the big hydra`
and decoding the result again gives `big hydra`. -/
theorem NormalizeMilestoneFields_not_idempotent (env : Env)
    (h : env.milestoneVerbMap = []) :
    Xlog.get (NormalizeMilestoneFields env
      [("verb", "uniq"), ("noun", "killed the big hydra.")]) "noun" = "the big hydra" ∧
    Xlog.get (NormalizeMilestoneFields env (NormalizeMilestoneFields env
      [("verb", "uniq"), ("noun", "killed the big hydra.")])) "noun" = "big hydra" := by
  have h1 : rActionWord.FindStringSubmatch "killed the big hydra." =
      some ["killed the big hydra.", "killed", "the big hydra"] := by decide
  have h2 : rActionWord.FindStringSubmatch "the big hydra" =
      some ["the big hydra", "the", "big hydra"] := by decide
  have e1 : NormalizeMilestoneFields env [("verb", "uniq"), ("noun", "killed the big hydra.")]
      = [("verb", "uniq"), ("noun", "the big hydra")] := by
    simp [NormalizeMilestoneFields, mappedVerb, h, Xlog.lookup, Xlog.get, milestoneSwitch, h1,
      qualifyVerbAction, Xlog.set]
  have e2 : NormalizeMilestoneFields env [("verb", "uniq"), ("noun", "the big hydra")]
      = [("verb", "uniq"), ("noun", "big hydra")] := by
    simp [NormalizeMilestoneFields, mappedVerb, h, Xlog.lookup, Xlog.get, milestoneSwitch, h2,
      qualifyVerbAction, Xlog.set]
  rw [e1, e2]
  decide

theorem NormalizeMilestoneFields_not_idempotent_witness :
    Env.identity.milestoneVerbMap = [] ∧
    Xlog.get (NormalizeMilestoneFields Env.identity
      [("verb", "uniq"), ("noun", "killed the big hydra.")]) "noun" = "the big hydra" ∧
    Xlog.get (NormalizeMilestoneFields Env.identity (NormalizeMilestoneFields Env.identity
      [("verb", "uniq"), ("noun", "killed the big hydra.")])) "noun" = "big hydra" :=
  ⟨rfl, NormalizeMilestoneFields_not_idempotent Env.identity rfl⟩

/-- C11: `ValidXlog` returns true exactly when `start` and `name` hold
non-empty values and at least one of `end`, `time` does, an absent key
counting as empty; it is a function of the record that returns only the
boolean. -/
theorem ValidXlog_iff (log : Xlog) :
    ValidXlog log = true ↔
      (∃ v, Xlog.lookup "start" log = some v ∧ v ≠ "") ∧
      (∃ v, Xlog.lookup "name" log = some v ∧ v ≠ "") ∧
      ((∃ v, Xlog.lookup "end" log = some v ∧ v ≠ "") ∨
        (∃ v, Xlog.lookup "time" log = some v ∧ v ≠ "")) := by
  have key : ∀ k, Xlog.get log k ≠ "" ↔ ∃ v, Xlog.lookup k log = some v ∧ v ≠ "" := by
    intro k
    unfold Xlog.get
    cases Xlog.lookup k log <;> simp
  simp only [ValidXlog, decide_eq_true_eq, key]

theorem ValidXlog_iff_witness :
    ValidXlog [("name", "bob"), ("start", "20140101"), ("time", "20140102")] = true ∧
    ValidXlog [("name", "bob"), ("start", ""), ("time", "20140102")] = false :=
  ⟨(ValidXlog_iff _).2 ⟨⟨"20140101", by decide, by decide⟩, ⟨"bob", by decide, by decide⟩,
    Or.inr ⟨"20140102", by decide, by decide⟩⟩, by decide⟩

/-- C12: `Type` returns `Milestone` exactly when the key `type` is present,
whatever its value, returns `Log` when it is absent, and never returns
`Unknown`. -/
theorem Type_iff (line : Xlog) :
    («Type» line = XlogType.Milestone ↔ ∃ v, Xlog.lookup "type" line = some v) ∧
    («Type» line = XlogType.Log ↔ Xlog.lookup "type" line = none) ∧
    «Type» line ≠ XlogType.Unknown := by
  unfold «Type»
  cases Xlog.lookup "type" line <;> simp

theorem Type_iff_witness :
    «Type» [("name", "bob"), ("type", "")] = XlogType.Milestone ∧
    «Type» [("name", "bob")] = XlogType.Log :=
  ⟨(Type_iff _).1.2 ⟨"", by decide⟩, (Type_iff _).2.1.2 (by decide)⟩

/-- C18: for every record with `src` and a remap table that lists none of
`v`, `cv`, `alpha`: after `NormalizeLog`, `alpha` is `t` when
`IsAlpha (FullVersion v)` holds and otherwise is the input entry; `cv` is
`MajorVersion (FullVersion v)` followed by `-a` exactly when the resulting
`alpha` is non-empty; so an input `alpha` that is non-empty gives the `-a`
suffix also when the version is not an alpha build. -/
theorem NormalizeLog_alpha (env : Env) (log : Xlog)
    (hs : Xlog.lookup "src" log ≠ none)
    (ht : ∀ e ∈ env.fieldInputTransforms, e.1 ≠ "v" ∧ e.1 ≠ "cv" ∧ e.1 ≠ "alpha") :
    Xlog.lookup "alpha" (NormalizeLog env log).1 =
      (if env.IsAlpha (env.FullVersion (Xlog.get log "v")) then some "t"
        else Xlog.lookup "alpha" log) ∧
    Xlog.lookup "cv" (NormalizeLog env log).1 =
      some (if Xlog.get (NormalizeLog env log).1 "alpha" ≠ ""
        then env.MajorVersion (env.FullVersion (Xlog.get log "v")) ++ "-a"
        else env.MajorVersion (env.FullVersion (Xlog.get log "v"))) ∧
    (env.IsAlpha (env.FullVersion (Xlog.get log "v")) = false → Xlog.get log "alpha" ≠ "" →
      Xlog.lookup "cv" (NormalizeLog env log).1 =
        some (env.MajorVersion (env.FullVersion (Xlog.get log "v")) ++ "-a")) := by
  have hal := NormalizeLog_lookup_early env log "alpha" hs (by decide)
    (fun e he => (ht e he).2.2)
  have hcv := NormalizeLog_lookup_early env log "cv" hs (by decide)
    (fun e he => (ht e he).2.1)
  rw [(early_lookup_version env log).2.1] at hal
  rw [(early_lookup_version env log).2.2.1] at hcv
  have ga : Xlog.get (NormalizeLog env log).1 "alpha" =
      (if env.IsAlpha (env.FullVersion (Xlog.get log "v")) then "t"
        else Xlog.get log "alpha") := by
    show (Xlog.lookup "alpha" (NormalizeLog env log).1).getD "" = _
    rw [hal]
    split <;> rfl
  refine ⟨hal, ?_, ?_⟩
  · rw [hcv, ga]
  · intro h1 h2
    rw [hcv]
    simp [h1, h2]

theorem NormalizeLog_alpha_witness :
    Xlog.get [("src", "cao"), ("v", "0.13.1"), ("alpha", "y")] "alpha" ≠ "" ∧
    Xlog.lookup "cv" (NormalizeLog Env.identity
      [("src", "cao"), ("v", "0.13.1"), ("alpha", "y")]).1 = some ("0.13.1" ++ "-a") :=
  ⟨by decide, (NormalizeLog_alpha Env.identity [("src", "cao"), ("v", "0.13.1"), ("alpha", "y")]
    (by decide) (by decide)).2.2 rfl (by decide)⟩

/-- C20: `NormalizeBool` returns `t` or `f`, and applied to its own result it
returns `t`; so for every record with `src` and a remap table that lists
neither `tiles` nor `wiz`, the second of two `NormalizeLog` runs leaves
`tiles = t` and `wiz = t`, whatever the input values. -/
theorem NormalizeBool_twice :
    (∀ b, NormalizeBool b = "t" ∨ NormalizeBool b = "f") ∧
    (∀ b, NormalizeBool (NormalizeBool b) = "t") ∧
    (∀ (env : Env) (log : Xlog), Xlog.lookup "src" log ≠ none →
      (∀ e ∈ env.fieldInputTransforms, e.1 ≠ "tiles" ∧ e.1 ≠ "wiz") →
      Xlog.lookup "tiles" (NormalizeLog env (NormalizeLog env log).1).1 = some "t" ∧
      Xlog.lookup "wiz" (NormalizeLog env (NormalizeLog env log).1).1 = some "t") := by
  have h1 : ∀ b, NormalizeBool b = "t" ∨ NormalizeBool b = "f" := by
    intro b
    unfold NormalizeBool
    split <;> simp
  have h2 : ∀ b, NormalizeBool (NormalizeBool b) = "t" := by
    intro b
    rcases h1 b with h | h <;> rw [h] <;> decide
  refine ⟨h1, h2, ?_⟩
  intro env log hs ht
  have hs1 := NormalizeLog_src_present env log hs
  have t1 := NormalizeLog_lookup_early env log "tiles" hs (by decide) (fun e he => (ht e he).1)
  have w1 := NormalizeLog_lookup_early env log "wiz" hs (by decide) (fun e he => (ht e he).2)
  have t2 := NormalizeLog_lookup_early env (NormalizeLog env log).1 "tiles" hs1 (by decide)
    (fun e he => (ht e he).1)
  have w2 := NormalizeLog_lookup_early env (NormalizeLog env log).1 "wiz" hs1 (by decide)
    (fun e he => (ht e he).2)
  rw [(early_lookup_bool env _).1] at t1 t2
  rw [(early_lookup_bool env _).2] at w1 w2
  have gt : Xlog.get (NormalizeLog env log).1 "tiles" = NormalizeBool (Xlog.get log "tiles") := by
    simp [Xlog.get, t1]
  have gw : Xlog.get (NormalizeLog env log).1 "wiz" = NormalizeBool (Xlog.get log "wiz") := by
    simp [Xlog.get, w1]
  rw [gt, h2] at t2
  rw [gw, h2] at w2
  exact ⟨t2, w2⟩

theorem NormalizeBool_twice_witness :
    Xlog.lookup "tiles" (NormalizeLog Env.identity [("src", "cao"), ("wiz", "0")]).1 = some "f" ∧
    Xlog.lookup "tiles" (NormalizeLog Env.identity
      (NormalizeLog Env.identity [("src", "cao"), ("wiz", "0")]).1).1 = some "t" ∧
    Xlog.lookup "wiz" (NormalizeLog Env.identity
      (NormalizeLog Env.identity [("src", "cao"), ("wiz", "0")]).1).1 = some "t" :=
  ⟨by decide, NormalizeBool_twice.2.2 Env.identity [("src", "cao"), ("wiz", "0")]
    (by decide) (by decide)⟩

/-- C13 fails as stated: `logfile-milestones.txt` contains `milestone`, and
`XlogFileType` returns `Log` for it, not `Milestone`. -/
theorem XlogFileType_both :
    "milestone".data <:+: "logfile-milestones.txt".data ∧
    XlogFileType "logfile-milestones.txt" = XlogType.Log ∧
    ¬ (∀ filename : String, "milestone".data <:+: filename.data →
      XlogFileType filename = XlogType.Milestone) := by
  have h : "milestone".data <:+: "logfile-milestones.txt".data := by
    rw [← hasSubstring_iff]; decide
  refine ⟨h, by decide, fun hall => ?_⟩
  have := hall "logfile-milestones.txt" h
  revert this
  decide

/-- C13 as amended: a filename that contains `logfile` is classified `Log`;
one that does not contain `logfile` and contains `milestone` is classified
`Milestone`; one that contains neither is classified `Unknown`. -/
theorem XlogFileType_spec (filename : String) :
    ("logfile".data <:+: filename.data → XlogFileType filename = XlogType.Log) ∧
    (¬ "logfile".data <:+: filename.data → "milestone".data <:+: filename.data →
      XlogFileType filename = XlogType.Milestone) ∧
    (¬ "logfile".data <:+: filename.data → ¬ "milestone".data <:+: filename.data →
      XlogFileType filename = XlogType.Unknown) := by
  simp only [← hasSubstring_iff]
  unfold XlogFileType
  refine ⟨fun h => by simp [h], fun h1 h2 => by simp [h1, h2], fun h1 h2 => by simp [h1, h2]⟩

theorem XlogFileType_spec_witness :
    XlogFileType "remote.cao-logfile-0.14" = XlogType.Log ∧
    XlogFileType "remote.cao-milestones-0.14" = XlogType.Milestone ∧
    XlogFileType "remote.cao-unk-0.14" = XlogType.Unknown :=
  ⟨(XlogFileType_spec _).1 (by rw [← hasSubstring_iff]; decide),
    (XlogFileType_spec _).2.1 (by rw [← hasSubstring_iff]; decide)
      (by rw [← hasSubstring_iff]; decide),
    (XlogFileType_spec _).2.2 (by rw [← hasSubstring_iff]; decide)
      (by rw [← hasSubstring_iff]; decide)⟩

/-- C14: the dot of the pattern `^remote.(\w+)-[\w.-]+$` is not escaped: the
filename `remoteXcao-logfile-git` does not start with `remote.`, and still
`XlogServerType` returns the server `cao` for it and `IsXlogQualifiedName`
is true. -/
theorem XlogServerType_unescaped_dot :
    ¬ "remote.".data <+: "remoteXcao-logfile-git".data ∧
    XlogServerType sampleLookup "remoteXcao-logfile-git" = ("cao", "crawl", XlogType.Log) ∧
    IsXlogQualifiedName "remoteXcao-logfile-git" = true := by
  refine ⟨?_, by decide, by decide⟩
  rw [← List.isPrefixOf_iff_prefix]
  decide

/-- C19: for a server that is a non-empty run of word characters, a game, a
version and a qualifier made of word characters, dots and hyphens, none of
the four containing `logfile` or `milestone`, and every kind,
`XlogServerType` applied to the `XlogQualifiedName` of them returns that
server and that kind. -/
theorem XlogServerType_XlogQualifiedName (g : TextTypeLookup)
    (server game version qualifier : String) (kind : XlogType)
    (hs : server ≠ "" ∧ ∀ c ∈ server.data, isWordChar c = true)
    (hc : ∀ c ∈ game.data ++ version.data ++ qualifier.data,
      isWordChar c = true ∨ c = '.' ∨ c = '-')
    (hl : ∀ t ∈ [server, game, version, qualifier],
      ¬ "logfile".data <:+: t.data ∧ ¬ "milestone".data <:+: t.data) :
    (XlogServerType g (XlogQualifiedName server game version qualifier kind)).1 = server ∧
    (XlogServerType g (XlogQualifiedName server game version qualifier kind)).2.2 = kind := by
  obtain ⟨tail, e, htc, hti⟩ := XlogQualifiedName_data server game version qualifier kind
  have hsd : server.data ≠ [] := fun h => hs.1 (by cases server; simp_all)
  have hm : rXlogQualifiedName.FindStringSubmatch
      (XlogQualifiedName server game version qualifier kind) =
      some [XlogQualifiedName server game version qualifier kind, server] := by
    have hsr := Regex.rXlogQualifiedName_search '.' (by decide) server.data
      (kind.String.data ++ '-' :: tail) hsd hs.2 (by simp) (by
        intro c hc'
        simp only [List.mem_append, List.mem_cons] at hc'
        rcases hc' with h | h | h
        · exact Or.inl ((kind_label_word kind).2 c h)
        · exact Or.inr (Or.inr h)
        · rcases htc c h with h' | h'
          · exact hc c h'
          · exact Or.inr (Or.inr h'))
    rw [← e] at hsr
    rw [Regex.FindStringSubmatch, hsr]
    rfl
  have hsub : ∀ P : List Char, '-' ∉ P → '.' ∉ P → ¬ P <:+: "remote".data →
      ¬ P <:+: server.data → ¬ P <:+: game.data → ¬ P <:+: version.data →
      ¬ P <:+: qualifier.data →
      (hasSubstring P (XlogQualifiedName server game version qualifier kind).data = true ↔
        P <:+: kind.String.data) := by
    intro P h1 h2 h3 h4 h5 h6 h7
    have h8 := hti P h1 h5 h6 h7
    rw [hasSubstring_iff, e, infix_sep_iff _ _ _ _ h2, infix_sep_iff _ _ _ _ h1,
      infix_sep_iff _ _ _ _ h1]
    tauto
  have hlog := hsub "logfile".data (by decide) (by decide)
    (by rw [← hasSubstring_iff]; decide) (hl server (by simp)).1 (hl game (by simp)).1
    (hl version (by simp)).1 (hl qualifier (by simp)).1
  have hmil := hsub "milestone".data (by decide) (by decide)
    (by rw [← hasSubstring_iff]; decide) (hl server (by simp)).2 (hl game (by simp)).2
    (hl version (by simp)).2 (hl qualifier (by simp)).2
  refine ⟨by simp [XlogServerType, hm], ?_⟩
  simp only [XlogServerType, hm, XlogFileType]
  rw [← hasSubstring_iff] at hlog hmil
  cases kind
  · have a : hasSubstring "logfile".data XlogType.Unknown.String.data = false := by decide
    have b : hasSubstring "milestone".data XlogType.Unknown.String.data = false := by decide
    rw [a] at hlog; rw [b] at hmil
    simp [Bool.eq_false_iff.2 (fun h => by simpa using hlog.1 h),
      Bool.eq_false_iff.2 (fun h => by simpa using hmil.1 h)]
  · have a : hasSubstring "logfile".data XlogType.Log.String.data = true := by decide
    simp [hlog.2 a]
  · have a : hasSubstring "logfile".data XlogType.Milestone.String.data = false := by decide
    have b : hasSubstring "milestone".data XlogType.Milestone.String.data = true := by decide
    rw [a] at hlog
    simp [Bool.eq_false_iff.2 (fun h => by simpa using hlog.1 h), hmil.2 b]

theorem XlogServerType_XlogQualifiedName_witness :
    (XlogServerType sampleLookup
      (XlogQualifiedName "cao" "sprint" "0.14" "" XlogType.Milestone)).1 = "cao" ∧
    (XlogServerType sampleLookup
      (XlogQualifiedName "cao" "sprint" "0.14" "" XlogType.Milestone)).2.2 =
        XlogType.Milestone :=
  XlogServerType_XlogQualifiedName sampleLookup "cao" "sprint" "0.14" "" XlogType.Milestone
    (by decide) (by decide)
    (by simp only [← hasSubstring_iff]; decide)

/-- C16: with the table `sprint: spr, zotdef: zd` and the filename
`cao-spr-zd.txt`, `FindType` over the matchers of `createTextTypeMatcher`
returns `sprint` when the `range` loop visits `sprint` first and `zotdef`
when it visits `zotdef` first: the result depends on the visiting order. -/
theorem createTextTypeMatcher_order :
    List.Perm [("sprint", TagValue.text "spr"), ("zotdef", TagValue.text "zd")]
      [("zotdef", TagValue.text "zd"), ("sprint", TagValue.text "spr")] ∧
    (createTextTypeMatcher [("sprint", TagValue.text "spr"), ("zotdef", TagValue.text "zd")]).map
      (fun lookup => lookup.FindType "cao-spr-zd.txt") = some "sprint" ∧
    (createTextTypeMatcher [("zotdef", TagValue.text "zd"), ("sprint", TagValue.text "spr")]).map
      (fun lookup => lookup.FindType "cao-spr-zd.txt") = some "zotdef" :=
  ⟨List.Perm.swap _ _ [], by decide, by decide⟩

/-- C17: when the case-insensitive lookup of a token `a` without colon gives
the canonical name `C`, `CanonicalPlace` returns `C` for `a` and `C:d` for
`a:d`, for every `d` and for every spelling of `a` that differs in case
only; and a place whose token has no alias is returned unchanged. -/
theorem CanonicalPlace_spec (aliases : List (String × String)) :
    (∀ (a C d : String), ':' ∉ a.data → aliasLookup aliases a.data = some C →
      CanonicalPlace aliases a = C ∧ CanonicalPlace aliases (a ++ ":" ++ d) = C ++ ":" ++ d) ∧
    (∀ (a b : String), a.data.map Char.toLower = b.data.map Char.toLower →
      aliasLookup aliases a.data = aliasLookup aliases b.data) ∧
    (∀ place : String,
      aliasLookup aliases (place.data.takeWhile (fun c => c ≠ ':')) = none →
      CanonicalPlace aliases place = place) := by
  have tw : ∀ (l r : List Char), ':' ∉ l →
      (l ++ ':' :: r).takeWhile (fun c => c ≠ ':') = l ∧
      (l ++ ':' :: r).dropWhile (fun c => c ≠ ':') = ':' :: r := by
    intro l r hl
    induction l with
    | nil => simp
    | cons x xs ih =>
      have hx : decide (x ≠ ':') = true := by
        simpa using fun h : x = ':' => hl (by simp [h])
      have := ih (fun h => hl (by simp [h]))
      rw [List.cons_append, List.takeWhile_cons, List.dropWhile_cons]
      simp only [hx, if_true, this.1, this.2, and_self]
  have tw0 : ∀ (l : List Char), ':' ∉ l →
      l.takeWhile (fun c => c ≠ ':') = l ∧ l.dropWhile (fun c => c ≠ ':') = [] := by
    intro l hl
    induction l with
    | nil => simp
    | cons x xs ih =>
      have hx : decide (x ≠ ':') = true := by
        simpa using fun h : x = ':' => hl (by simp [h])
      have := ih (fun h => hl (by simp [h]))
      rw [List.takeWhile_cons, List.dropWhile_cons]
      simp only [hx, if_true, this.1, this.2, and_self]
  refine ⟨?_, ?_, ?_⟩
  · intro a C d ha hC
    constructor
    · simp only [CanonicalPlace, (tw0 a.data ha).1, (tw0 a.data ha).2, hC]
      apply String.ext
      simp
    · have e : (a ++ ":" ++ d).data = a.data ++ ':' :: d.data := by
        simp [String.data_append]
      simp only [CanonicalPlace, e, (tw a.data d.data ha).1, (tw a.data d.data ha).2, hC]
      apply String.ext
      simp [String.data_append]
  · intro a b h
    simp [aliasLookup, h]
  · intro place h
    simp only [CanonicalPlace, h]
    apply String.ext
    simp [String.data_append]

theorem CanonicalPlace_spec_witness :
    CanonicalPlace sampleAliases "shoal:2" = "Shoals:2" ∧
    CanonicalPlace sampleAliases "Shoals:4" = "Shoals:4" ∧
    CanonicalPlace sampleAliases "V:4" = "Vaults:4" ∧
    CanonicalPlace sampleAliases "ice" = "IceCv" ∧
    CanonicalPlace sampleAliases "Labyrinth" = "Lab" :=
  ⟨((CanonicalPlace_spec sampleAliases).1 "shoal" "Shoals" "2" (by decide) (by decide)).2,
    (CanonicalPlace_spec sampleAliases).2.2 "Shoals:4" (by decide),
    ((CanonicalPlace_spec sampleAliases).1 "V" "Vaults" "4" (by decide) (by decide)).2,
    ((CanonicalPlace_spec sampleAliases).1 "ice" "IceCv" "" (by decide) (by decide)).1,
    ((CanonicalPlace_spec sampleAliases).1 "Labyrinth" "Lab" "" (by decide) (by decide)).1⟩

/-- C15: `XlogGameVersion` follows a strict precedence. If the filename
contains `git`, `svn`, `master` or `trunk` as a whole word (between ASCII
word boundaries, case ignored) the result is `git`, whatever else the
filename contains. Otherwise, if it contains a `<digits>.<digits>` substring,
the result is the leftmost such substring (the longest one that starts
there). Otherwise, if it contains two digits that end at a word boundary, the
result is `ExpandVersionKey` of the leftmost such pair. Otherwise the result
is `any`. -/
theorem XlogGameVersion_precedence (ExpandVersionKey : String → String) (filename : String) :
    (Contains VcsWordAt filename.data → XlogGameVersion ExpandVersionKey filename = "git") ∧
    (¬ Contains VcsWordAt filename.data → Contains DottedAt filename.data →
      ∃ m, Leftmost DottedAt filename.data m ∧
        XlogGameVersion ExpandVersionKey filename = String.mk m) ∧
    (¬ Contains VcsWordAt filename.data → ¬ Contains DottedAt filename.data →
      Contains VersionKeyAt filename.data →
      ∃ m, Leftmost VersionKeyAt filename.data m ∧
        XlogGameVersion ExpandVersionKey filename = ExpandVersionKey (String.mk m)) ∧
    (¬ Contains VcsWordAt filename.data → ¬ Contains DottedAt filename.data →
      ¬ Contains VersionKeyAt filename.data →
      XlogGameVersion ExpandVersionKey filename = "any") := by
  have hne : ∀ m : List Char, m ≠ [] → String.mk m ≠ "" := by
    intro m hm h
    exact hm (by simpa using congrArg String.data h)
  have hgit : ¬ Contains VcsWordAt filename.data → rGitVersion.MatchString filename = false := by
    intro h
    rw [← Bool.not_eq_true, MatchString_rGitVersion_iff]
    exact h
  refine ⟨?_, ?_, ?_, ?_⟩
  · intro h
    simp [XlogGameVersion, (MatchString_rGitVersion_iff filename).2 h]
  · intro h1 h2
    obtain ⟨m, hm⟩ := exists_leftmost _ _ h2
    refine ⟨m, hm, ?_⟩
    have hf := FindString_of_search _ _ _ (search_rEmbeddedVersion_leftmost _ _ hm)
    have hm0 : m ≠ [] := by
      obtain ⟨a, b, _, ⟨d1, d2, rfl, _⟩, _⟩ := hm
      simp
    simp [XlogGameVersion, hgit h1, hf, hne m hm0]
  · intro h1 h2 h3
    obtain ⟨m, hm⟩ := exists_leftmost _ _ h3
    refine ⟨m, hm, ?_⟩
    have hv := FindString_of_search_none _ _ (search_rEmbeddedVersion_none _ h2)
    have hf := FindString_of_search _ _ _ (search_rEmbeddedVersionKey_leftmost _ _ hm)
    have hm0 : m ≠ [] := by
      obtain ⟨a, b, _, ⟨⟨c1, c2, rfl, _⟩, _⟩, _⟩ := hm
      simp
    simp [XlogGameVersion, hgit h1, hv, hf, hne m hm0]
  · intro h1 h2 h3
    have hv := FindString_of_search_none _ _ (search_rEmbeddedVersion_none _ h2)
    have hk := FindString_of_search_none _ _ (search_rEmbeddedVersionKey_none _ h3)
    simp [XlogGameVersion, hgit h1, hv, hk]

theorem XlogGameVersion_precedence_witness :
    XlogGameVersion (fun key => key) "cao-svn-0.14.txt" = "git" ∧
    (∃ m, Leftmost DottedAt "allgames-0.14.txt".data m ∧
      XlogGameVersion (fun key => key) "allgames-0.14.txt" = String.mk m) :=
  ⟨(XlogGameVersion_precedence _ "cao-svn-0.14.txt").1
      ⟨"cao-".data, "svn".data, "-0.14.txt".data, by decide,
        ⟨"svn", by decide, by decide⟩, by decide, by decide⟩,
    (XlogGameVersion_precedence _ "allgames-0.14.txt").2.1
      (fun h => absurd ((MatchString_rGitVersion_iff _).2 h) (by decide))
      ⟨"allgames-".data, "0.14".data, ".txt".data, by decide,
        "0".data, "14".data, by decide, by decide, by decide, by decide, by decide⟩⟩

end Sequell
